import Mathlib

/-
Verification of `modoboa/lib/parameters.py`, a process-local parameter
registry: applications register admin-level and user-level parameter
definitions; effective values are resolved against an external override
store, falling back to the declared default.

The registry state (`_params`, `_params_order`) is embedded as explicit
state passed to every operation.  Python dictionaries become association
lists, Python exceptions become `Except PyErr`, and the external ORM
store becomes an explicit key/value map.
-/

/-- A Python value stored in parameter metadata or options: a string,
a boolean, or a callback (identified by a name, since we only observe
which callback is invoked and with which argument). -/
inductive Value where
  | str (s : String)
  | bool (b : Bool)
  | cb (id : String)
deriving DecidableEq

/-- Python truthiness of a `Value` (`if aparams_opts:`-style tests). -/
def pyTruthy : Value → Bool
  | .str s => !s.isEmpty
  | .bool b => b
  | .cb _ => true

/-- Association-list lookup; models Python dict `d[k]` / `d.get(k)`. -/
def alGet {κ α : Type} [DecidableEq κ] : List (κ × α) → κ → Option α
  | [], _ => none
  | (k0, v0) :: t, k => if k0 = k then some v0 else alGet t k

/-- Association-list update; models Python dict assignment `d[k] = v`. -/
def alSet {κ α : Type} [DecidableEq κ] : List (κ × α) → κ → α → List (κ × α)
  | [], k, v => [(k, v)]
  | (k0, v0) :: t, k, v => if k0 = k then (k, v) :: t else (k0, v0) :: alSet t k v

/-- The keys of an association list; models Python `d.keys()`. -/
def alKeys {κ α : Type} (l : List (κ × α)) : List κ :=
  l.map Prod.fst

/-- A Python dict with string keys holding `Value`s (parameter metadata,
option tables, keyword arguments). -/
abbrev Dict : Type := List (String × Value)

/-- Dict lookup specialised to `Dict`. -/
def dictGet (d : Dict) (k : String) : Option Value :=
  alGet d k

/-- Dict update specialised to `Dict`. -/
def dictSet (d : Dict) (k : String) (v : Value) : Dict :=
  alSet d k v

/-- Models `for k, v in kwargs.iteritems(): d[k] = v`. -/
def kwargsApply (d : Dict) (kwargs : Dict) : Dict :=
  kwargs.foldl (fun acc p => dictSet acc p.1 p.2) d

/-- Python exceptions this module can raise: `NotDefined(app, name)` and
a raw `KeyError` on an unguarded dict lookup. -/
inductive PyErr where
  | notDefined (app name : String)
  | keyError (key : String)
deriving DecidableEq

instance {ε α : Type} [DecidableEq ε] [DecidableEq α] : DecidableEq (Except ε α) := fun a b =>
  match a, b with
  | .ok x, .ok y =>
      if h : x = y then .isTrue (by rw [h])
      else .isFalse (fun hc => h (Except.ok.inj hc))
  | .error e, .error f =>
      if h : e = f then .isTrue (by rw [h])
      else .isFalse (fun hc => h (Except.error.inj hc))
  | .ok _, .error _ => .isFalse (fun hc => Except.noConfusion hc)
  | .error _, .ok _ => .isFalse (fun hc => Except.noConfusion hc)

/-- Python 2 lexicographic comparison of unicode strings (by code
point), as used by `sorted`. -/
def charListLe : List Char → List Char → Bool
  | [], _ => true
  | _ :: _, [] => false
  | a :: as, b :: bs =>
      if a.toNat < b.toNat then true
      else if a.toNat = b.toNat then charListLe as bs
      else false

/-- String comparison backing `sorted(_params.keys())`. -/
def pyStrLe (a b : String) : Bool := charListLe a.data b.data

/-- Per-application registry entry: the two per-level parameter tables
(`_params[app]['A']`, `_params[app]['U']`, each mapping a parameter name
to its metadata dict) and the per-level options (`_params[app]['options']`,
whose only possible keys are `'A'` and `'U'`). -/
structure AppData where
  aparams : List (String × Dict)
  uparams : List (String × Dict)
  optionsA : Option Dict
  optionsU : Option Dict
deriving DecidableEq

/-- Per-application registration order (`_params_order[app]['A']` and
`_params_order[app]['U']`). -/
structure AppOrder where
  a : List String
  u : List String
deriving DecidableEq

/-- The registry's global state: `_params` and `_params_order`. -/
structure RegState where
  params : List (String × AppData)
  paramsOrder : List (String × AppOrder)
deriving DecidableEq

/-- The keys of `_levels`: `['A', 'U']`. -/
def levels : List String := ["A", "U"]

/-- `_params[app][level]` for a valid level (empty table otherwise;
callers always check the level against `levels` first). -/
def levelTable (ad : AppData) (lvl : String) : List (String × Dict) :=
  if lvl = "A" then ad.aparams else if lvl = "U" then ad.uparams else []

/-- Replace `_params[app][level]` for a valid level. -/
def setLevelTable (ad : AppData) (lvl : String) (tbl : List (String × Dict)) : AppData :=
  if lvl = "A" then { ad with aparams := tbl }
  else if lvl = "U" then { ad with uparams := tbl }
  else ad

/-- `_params_order[app][level]` for a valid level. -/
def levelOrder (o : AppOrder) (lvl : String) : List String :=
  if lvl = "A" then o.a else if lvl = "U" then o.u else []

/-- Replace `_params_order[app][level]` for a valid level. -/
def setLevelOrder (o : AppOrder) (lvl : String) (ord : List String) : AppOrder :=
  if lvl = "A" then { o with a := ord }
  else if lvl = "U" then { o with u := ord }
  else o

/-- `_params[app]['options'][lvl]`: present only when `register_app`
stored options for that level. -/
def optionsFor (ad : AppData) (lvl : String) : Option Dict :=
  if lvl = "A" then ad.optionsA else if lvl = "U" then ad.optionsU else none

/-- The app entry `register_app` creates when no options are supplied. -/
def emptyAppData : AppData :=
  { aparams := [], uparams := [], optionsA := none, optionsU := none }

/-- The empty registry (module load time: `_params = {}` etc.). -/
def emptyState : RegState :=
  { params := [], paramsOrder := [] }

/-- `register_app(app, aparams_opts, uparams_opts)`: a no-op when the
app already exists, otherwise creates empty per-level tables and order
lists and stores each options dict only when it is truthy (non-empty;
the Python default `None` is rendered as the empty dict). -/
def register_app (st : RegState) (app : String) (aOpts uOpts : Dict) : RegState :=
  if (alGet st.params app).isSome then st
  else
    let ad : AppData :=
      { aparams := [], uparams := [],
        optionsA := if aOpts.isEmpty then none else some aOpts,
        optionsU := if uOpts.isEmpty then none else some uOpts }
    { params := alSet st.params app ad,
      paramsOrder := alSet st.paramsOrder app ⟨[], []⟩ }

/-- `__is_defined(app, level, name)`: raises `NotDefined(app, name)`
when the level is unrecognized, the app is unregistered, or the name is
not registered at that level. -/
def is_defined (st : RegState) (app lvl name : String) : Except PyErr Unit :=
  if lvl ∈ levels then
    match alGet st.params app with
    | some ad =>
        if (alGet (levelTable ad lvl) name).isSome then .ok ()
        else .error (.notDefined app name)
    | none => .error (.notDefined app name)
  else .error (.notDefined app name)

/-- The condition `__is_defined` tests, as a boolean. -/
def paramDefined (st : RegState) (app lvl name : String) : Bool :=
  decide (lvl ∈ levels) &&
    (match alGet st.params app with
     | some ad => (alGet (levelTable ad lvl) name).isSome
     | none => false)

/-- Direct lookup of a registered definition, `_params[app][lvl][name]`. -/
def lookupDef (st : RegState) (app lvl name : String) : Option Dict :=
  match alGet st.params app with
  | some ad => alGet (levelTable ad lvl) name
  | none => none

/-- `get_param_def(app, level, name)`: `__is_defined` then
`_params[app][level][name]` (the trailing `keyError` branches are
unreachable once the check has passed). -/
def get_param_def (st : RegState) (app lvl name : String) : Except PyErr Dict := do
  let _ ← is_defined st app lvl name
  match lookupDef st app lvl name with
  | some d => .ok d
  | none => .error (.keyError name)

/-- `__register(app, level, name, **kwargs)`: auto-creates the app if
unknown, silently ignores an invalid level or an already-registered
name, otherwise stores the keyword arguments as a fresh metadata dict
and appends the name to the level's order list.  The `keyError`
branches model the raw `KeyError` Python would raise on the unguarded
`_params[app][level]` / `_params_order[app]` subscripts (unreachable
from consistent states). -/
def register_param (st : RegState) (app lvl name : String) (kwargs : Dict) :
    Except PyErr RegState :=
  let st := if (alGet st.params app).isSome then st else register_app st app [] []
  if lvl ∈ levels then
    match alGet st.params app with
    | none => .error (.keyError app)
    | some ad =>
        if (alGet (levelTable ad lvl) name).isSome then .ok st
        else
          match alGet st.paramsOrder app with
          | none => .error (.keyError app)
          | some ord =>
              let newdef := kwargsApply [] kwargs
              let ad' := setLevelTable ad lvl (alSet (levelTable ad lvl) name newdef)
              let ord' := setLevelOrder ord lvl (levelOrder ord lvl ++ [name])
              .ok { params := alSet st.params app ad',
                    paramsOrder := alSet st.paramsOrder app ord' }
  else .ok st

/-- `get_app_option(lvl, name, dflt, app)`: the first subscript
`_params[app]` is unguarded, so an unregistered app raises `KeyError`;
otherwise a missing level key or option name yields the default. -/
def get_app_option (st : RegState) (lvl name : String) (dflt : Value) (app : String) :
    Except PyErr Value :=
  match alGet st.params app with
  | none => .error (.keyError app)
  | some ad =>
      match optionsFor ad lvl with
      | none => .ok dflt
      | some od =>
          match dictGet od name with
          | none => .ok dflt
          | some v => .ok v

/-- Python `unicode.isspace`-style test for the characters `str.strip()`
removes: space, tab, newline, carriage return, vertical tab, form feed. -/
def pyIsSpaceChar (c : Char) : Bool :=
  c = ' ' || c = '\t' || c = '\n' || c = '\r' || c.toNat = 11 || c.toNat = 12

/-- Lower-case hexadecimal digit for a value below 16. -/
def hexDigitChar (n : Nat) : Char :=
  if n < 10 then Char.ofNat (48 + n) else Char.ofNat (87 + n)

/-- Numeric value of a hexadecimal digit (0 for non-digits). -/
def hexVal (c : Char) : Nat :=
  if 48 ≤ c.toNat ∧ c.toNat ≤ 57 then c.toNat - 48
  else if 97 ≤ c.toNat ∧ c.toNat ≤ 102 then c.toNat - 87
  else if 65 ≤ c.toNat ∧ c.toNat ≤ 70 then c.toNat - 55
  else 0

/-- One character of Python's `unicode_escape` codec on encoding:
backslash, tab, newline and carriage return get two-character escapes;
other characters outside printable ASCII get `\xHH`, `\uHHHH` or
`\UHHHHHHHH`; printable ASCII stays literal. -/
def encodeChar (c : Char) : List Char :=
  if c = '\\' then ['\\', '\\']
  else if c = '\t' then ['\\', 't']
  else if c = '\n' then ['\\', 'n']
  else if c = '\r' then ['\\', 'r']
  else if c.toNat < 32 then
    ['\\', 'x', hexDigitChar (c.toNat / 16), hexDigitChar (c.toNat % 16)]
  else if c.toNat < 127 then [c]
  else if c.toNat < 256 then
    ['\\', 'x', hexDigitChar (c.toNat / 16), hexDigitChar (c.toNat % 16)]
  else if c.toNat < 65536 then
    ['\\', 'u', hexDigitChar (c.toNat / 4096), hexDigitChar (c.toNat / 256 % 16),
     hexDigitChar (c.toNat / 16 % 16), hexDigitChar (c.toNat % 16)]
  else
    ['\\', 'U', hexDigitChar (c.toNat / 268435456), hexDigitChar (c.toNat / 16777216 % 16),
     hexDigitChar (c.toNat / 1048576 % 16), hexDigitChar (c.toNat / 65536 % 16),
     hexDigitChar (c.toNat / 4096 % 16), hexDigitChar (c.toNat / 256 % 16),
     hexDigitChar (c.toNat / 16 % 16), hexDigitChar (c.toNat % 16)]

/-- `value.encode("unicode_escape")` over a character list. -/
def encodeList : List Char → List Char
  | [] => []
  | c :: r => encodeChar c ++ encodeList r

/-- `unicode_escape` decoding over a character list: interprets the
escape sequences the encoder produces; an incomplete or unknown escape
keeps the backslash literally. -/
def decodeList : List Char → List Char
  | '\\' :: '\\' :: r => '\\' :: decodeList r
  | '\\' :: 't' :: r => '\t' :: decodeList r
  | '\\' :: 'n' :: r => '\n' :: decodeList r
  | '\\' :: 'r' :: r => '\r' :: decodeList r
  | '\\' :: 'x' :: h1 :: h2 :: r =>
      Char.ofNat (16 * hexVal h1 + hexVal h2) :: decodeList r
  | '\\' :: 'u' :: h1 :: h2 :: h3 :: h4 :: r =>
      Char.ofNat (4096 * hexVal h1 + 256 * hexVal h2 + 16 * hexVal h3 + hexVal h4) ::
        decodeList r
  | '\\' :: 'U' :: h1 :: h2 :: h3 :: h4 :: h5 :: h6 :: h7 :: h8 :: r =>
      Char.ofNat (268435456 * hexVal h1 + 16777216 * hexVal h2 + 1048576 * hexVal h3 +
        65536 * hexVal h4 + 4096 * hexVal h5 + 256 * hexVal h6 + 16 * hexVal h7 + hexVal h8) ::
        decodeList r
  | c :: r => c :: decodeList r
  | [] => []

/-- Python `s.strip()` over a character list: drop whitespace from both
ends. -/
def stripList (l : List Char) : List Char :=
  (((l.dropWhile pyIsSpaceChar).reverse.dropWhile pyIsSpaceChar)).reverse

/-- Drop leading and trailing space (U+0020) characters only. -/
def stripSpaces (l : List Char) : List Char :=
  (((l.dropWhile (· = ' ')).reverse.dropWhile (· = ' '))).reverse

/-- `value.encode("unicode_escape")` on strings. -/
def pyEncode (s : String) : String :=
  String.mk (encodeList s.data)

/-- `value.decode("unicode_escape")` on strings. -/
def pyDecode (s : String) : String :=
  String.mk (decodeList s.data)

/-- `s.strip()` on strings. -/
def pyStrip (s : String) : String :=
  String.mk (stripList s.data)

/-- Leading/trailing-space removal on strings. -/
def stripSpacesStr (s : String) : String :=
  String.mk (stripSpaces s.data)

/-- Modelled from the spec: the admin override store backing
`models.Parameter` (absent from the sources) is a key/value map from
fully-qualified names to the persisted string; a fetch miss corresponds
to `Parameter.DoesNotExist`. -/
abbrev Store : Type := List (String × String)

/-- Modelled from the spec: a user identity, an opaque name plus the
mailbox capability predicate consulted by `needs_mailbox`. -/
structure User where
  name : String
  has_mailbox : Bool
deriving DecidableEq

/-- Modelled from the spec: the user override store backing
`models.UserParameter`, keyed by (user identity, fully-qualified name). -/
abbrev UStore : Type := List ((String × String) × String)

/-- Observable side effects of a save: invoking a change callback with
the raw new value, and persisting an encoded value under a key. -/
inductive Event where
  | callback (f : Value) (arg : String)
  | persist (key stored : String)
deriving DecidableEq

/-- The fully-qualified name `"%s.%s" % (app, name)`. -/
def fullName (app name : String) : String :=
  app ++ "." ++ name

/-- `save_admin(name, value, app)`: after `__is_defined`, fetch the
override record; when the new value differs from the record's current
value (a missing record has no current value, so any value differs —
modelled from the spec's create-or-update description), invoke the
definition's `modify_cb` if present, then persist the encoded, stripped
value.  Returns the updated store and the ordered side-effect trace. -/
def save_admin (st : RegState) (store : Store) (name value app : String) :
    Except PyErr (Store × List Event) := do
  let _ ← is_defined st app "A" name
  let fn := fullName app name
  let differs : Bool :=
    match alGet store fn with
    | some v0 => v0 != value
    | none => true
  if differs then
    let pdef ← get_param_def st app "A" name
    let evs : List Event :=
      match dictGet pdef "modify_cb" with
      | some f => [.callback f value]
      | none => []
    let stored := pyStrip (pyEncode value)
    .ok (alSet store fn stored, evs ++ [.persist fn stored])
  else
    .ok (store, [])

/-- `save_user(user, name, value, app)`: the user-level counterpart of
`save_admin`, keyed by (user, fully-qualified name). -/
def save_user (st : RegState) (ustore : UStore) (user : User) (name value app : String) :
    Except PyErr (UStore × List Event) := do
  let _ ← is_defined st app "U" name
  let fn := fullName app name
  let differs : Bool :=
    match alGet ustore (user.name, fn) with
    | some v0 => v0 != value
    | none => true
  if differs then
    let pdef ← get_param_def st app "U" name
    let evs : List Event :=
      match dictGet pdef "modify_cb" with
      | some f => [.callback f value]
      | none => []
    let stored := pyStrip (pyEncode value)
    .ok (alSet ustore (user.name, fn) stored, evs ++ [.persist fn stored])
  else
    .ok (ustore, [])

/-- `get_admin(name, app)`: after `__is_defined`, return the decoded
override when a record exists, else the metadata's `deflt` entry (a raw
`KeyError` when the metadata has no such key). -/
def get_admin (st : RegState) (store : Store) (name app : String) : Except PyErr Value := do
  let _ ← is_defined st app "A" name
  match alGet store (fullName app name) with
  | some v => .ok (.str (pyDecode v))
  | none =>
      match lookupDef st app "A" name with
      | some pdef =>
          match dictGet pdef "deflt" with
          | some d => .ok d
          | none => .error (.keyError "deflt")
      | none => .error (.keyError name)

/-- `get_user(user, name, app)`: the user-level counterpart of
`get_admin`. -/
def get_user (st : RegState) (ustore : UStore) (user : User) (name app : String) :
    Except PyErr Value := do
  let _ ← is_defined st app "U" name
  match alGet ustore (user.name, fullName app name) with
  | some v => .ok (.str (pyDecode v))
  | none =>
      match lookupDef st app "U" name with
      | some pdef =>
          match dictGet pdef "deflt" with
          | some d => .ok d
          | none => .error (.keyError "deflt")
      | none => .error (.keyError name)

/-- One record of the `get_all_*` results: `{"name": app, "params": [...]}`. -/
structure AllRecord where
  name : String
  params : List Dict
deriving DecidableEq

/-- The inner loop of `get_all_admin_parameters`: for each name in
registration order, a deep copy of the metadata extended with the
parameter's name and resolved value. -/
def adminParamsLoop (st : RegState) (store : Store) (app : String) :
    List String → Except PyErr (List Dict)
  | [] => .ok []
  | p :: rest =>
      match lookupDef st app "A" p with
      | none => .error (.keyError p)
      | some d0 => do
          let v ← get_admin st store p app
          let tail ← adminParamsLoop st store app rest
          .ok (dictSet (dictSet d0 "name" (.str p)) "value" v :: tail)

/-- One iteration of the outer loop of `get_all_admin_parameters`. -/
def adminAppRecord (st : RegState) (store : Store) (app : String) :
    Except PyErr AllRecord :=
  match alGet st.paramsOrder app with
  | none => .error (.keyError app)
  | some ord => do
      let ps ← adminParamsLoop st store app ord.a
      .ok ⟨app, ps⟩

/-- The outer loop of `get_all_admin_parameters` over a given app list. -/
def adminAllLoop (st : RegState) (store : Store) :
    List String → Except PyErr (List AllRecord)
  | [] => .ok []
  | app :: rest => do
      let r ← adminAppRecord st store app
      let tail ← adminAllLoop st store rest
      .ok (r :: tail)

/-- `sorted(_params.keys())`. -/
def sortedKeys {α : Type} (l : List (String × α)) : List String :=
  List.insertionSort (fun a b => pyStrLe a b = true) (alKeys l)

/-- `get_all_admin_parameters()`: apps in sorted order, each app's admin
parameters in registration order, each resolved via `get_admin`. -/
def get_all_admin_parameters (st : RegState) (store : Store) :
    Except PyErr (List AllRecord) :=
  adminAllLoop st store (sortedKeys st.params)

/-- The inner loop of `get_all_user_params`. -/
def userParamsLoop (st : RegState) (ustore : UStore) (user : User) (app : String) :
    List String → Except PyErr (List Dict)
  | [] => .ok []
  | p :: rest =>
      match lookupDef st app "U" p with
      | none => .error (.keyError p)
      | some d0 => do
          let v ← get_user st ustore user p app
          let tail ← userParamsLoop st ustore user app rest
          .ok (dictSet (dictSet d0 "name" (.str p)) "value" v :: tail)

/-- One kept iteration of the outer loop of `get_all_user_params`. -/
def userAppRecord (st : RegState) (ustore : UStore) (user : User) (app : String) :
    Except PyErr AllRecord :=
  match alGet st.paramsOrder app with
  | none => .error (.keyError app)
  | some ord => do
      let ps ← userParamsLoop st ustore user app ord.u
      .ok ⟨app, ps⟩

/-- The outer loop of `get_all_user_params` over a given app list: skips
apps with an empty user-level table and apps whose truthy `needs_mailbox`
option is not matched by the user's mailbox capability. -/
def userAllLoop (st : RegState) (ustore : UStore) (user : User) :
    List String → Except PyErr (List AllRecord)
  | [] => .ok []
  | app :: rest =>
      match alGet st.params app with
      | none => .error (.keyError app)
      | some ad =>
          if ad.uparams.isEmpty then userAllLoop st ustore user rest
          else do
            let opt ← get_app_option st "U" "needs_mailbox" (.bool false) app
            if pyTruthy opt && !user.has_mailbox then userAllLoop st ustore user rest
            else do
              let r ← userAppRecord st ustore user app
              let tail ← userAllLoop st ustore user rest
              .ok (r :: tail)

/-- `get_all_user_params(user)`. -/
def get_all_user_params (st : RegState) (ustore : UStore) (user : User) :
    Except PyErr (List AllRecord) :=
  userAllLoop st ustore user (sortedKeys st.params)


theorem alGet_alSet_self {κ α : Type} [DecidableEq κ] (l : List (κ × α)) (k : κ) (v : α) :
    alGet (alSet l k v) k = some v := by
  induction l with
  | nil => simp [alSet, alGet]
  | cons hd t ih =>
      obtain ⟨k0, v0⟩ := hd
      by_cases h : k0 = k
      · simp [alSet, alGet, h]
      · simp [alSet, alGet, h, ih]

theorem alGet_alSet_ne {κ α : Type} [DecidableEq κ] (l : List (κ × α)) (k k' : κ) (v : α)
    (h : k' ≠ k) : alGet (alSet l k v) k' = alGet l k' := by
  have h' : k ≠ k' := Ne.symm h
  induction l with
  | nil => simp [alSet, alGet, h']
  | cons hd t ih =>
      obtain ⟨k0, v0⟩ := hd
      by_cases h0 : k0 = k
      · subst h0
        simp [alSet, alGet, h']
      · simp [alSet, alGet, h0, ih]

theorem alGet_append {κ α : Type} [DecidableEq κ] (l m : List (κ × α)) (k : κ) :
    alGet (l ++ m) k = ((alGet l k).rec (alGet m k) fun v => some v : Option α) := by
  induction l with
  | nil => simp [alGet]
  | cons hd t ih =>
      obtain ⟨k0, v0⟩ := hd
      by_cases h : k0 = k
      · simp [alGet, h]
      · simp [alGet, h, ih]

theorem alSet_of_get_none {κ α : Type} [DecidableEq κ] (l : List (κ × α)) (k : κ) (v : α)
    (h : alGet l k = none) : alSet l k v = l ++ [(k, v)] := by
  induction l with
  | nil => simp [alSet]
  | cons hd t ih =>
      obtain ⟨k0, v0⟩ := hd
      by_cases h0 : k0 = k
      · simp [alGet, h0] at h
      · simp [alGet, h0] at h
        simp [alSet, h0, ih h]

theorem mem_alKeys_of_get_some {κ α : Type} [DecidableEq κ] {l : List (κ × α)} {k : κ} {v : α}
    (h : alGet l k = some v) : k ∈ alKeys l := by
  induction l with
  | nil => simp [alGet] at h
  | cons hd t ih =>
      obtain ⟨k0, v0⟩ := hd
      by_cases h0 : k0 = k
      · simp [alKeys, h0]
      · simp [alGet, h0] at h
        simp only [alKeys, List.map_cons, List.mem_cons]
        exact Or.inr (ih h)

theorem alGet_none_iff_not_mem {κ α : Type} [DecidableEq κ] (l : List (κ × α)) (k : κ) :
    alGet l k = none ↔ k ∉ alKeys l := by
  induction l with
  | nil => simp [alGet, alKeys]
  | cons hd t ih =>
      obtain ⟨k0, v0⟩ := hd
      by_cases h0 : k0 = k
      · subst h0
        simp [alGet, alKeys]
      · simp only [alGet, h0, if_false, alKeys, List.map_cons, List.mem_cons, ih]
        constructor
        · intro hnm hor
          cases hor with
          | inl he => exact h0 he.symm
          | inr hm => exact hnm hm
        · intro hall hm
          exact hall (Or.inr hm)

theorem kwargsApply_acc (kwargs : Dict) : ∀ acc : Dict,
    (∀ k ∈ alKeys kwargs, alGet acc k = none) → (alKeys kwargs).Nodup →
    kwargsApply acc kwargs = acc ++ kwargs := by
  induction kwargs with
  | nil =>
      intro acc _ _
      simp [kwargsApply]
  | cons hd t ih =>
      intro acc hfresh hnodup
      obtain ⟨k, v⟩ := hd
      have hacck : alGet acc k = none := hfresh k (by simp [alKeys])
      have hset : dictSet acc k v = acc ++ [(k, v)] := alSet_of_get_none acc k v hacck
      have hnodup' : (alKeys ((k, v) :: t)).Nodup := hnodup
      rw [show alKeys ((k, v) :: t) = k :: alKeys t from rfl] at hnodup'
      have hnd : (alKeys t).Nodup := hnodup'.of_cons
      have hkt : k ∉ alKeys t := (List.nodup_cons.mp hnodup').1
      have hfresh' : ∀ k' ∈ alKeys t, alGet (acc ++ [(k, v)]) k' = none := by
        intro k' hk'
        have h1 : alGet acc k' = none := by
          refine hfresh k' ?_
          simp only [alKeys, List.map_cons, List.mem_cons]
          exact Or.inr hk'
        have h2 : k ≠ k' := fun h => hkt (h ▸ hk')
        rw [alGet_append, h1]
        simp [alGet, h2]
      have hrec : kwargsApply (acc ++ [(k, v)]) t = (acc ++ [(k, v)]) ++ t :=
        ih _ hfresh' hnd
      calc kwargsApply acc ((k, v) :: t)
          = kwargsApply (dictSet acc k v) t := by
            simp [kwargsApply, List.foldl_cons]
        _ = (acc ++ [(k, v)]) ++ t := by rw [hset]; exact hrec
        _ = acc ++ ((k, v) :: t) := by simp

theorem kwargsApply_nil (kwargs : Dict) (h : (alKeys kwargs).Nodup) :
    kwargsApply ([] : Dict) kwargs = kwargs := by
  have := kwargsApply_acc kwargs [] (by intro k _; rfl) h
  simpa using this

theorem is_defined_ok_iff (st : RegState) (app lvl name : String) :
    is_defined st app lvl name = .ok () ↔ paramDefined st app lvl name = true := by
  unfold is_defined paramDefined
  by_cases hl : lvl ∈ levels
  · cases h : alGet st.params app with
    | none => simp [hl, h]
    | some ad =>
        by_cases hn : (alGet (levelTable ad lvl) name).isSome
        · simp [hl, h, hn]
        · simp [hl, h, hn]
  · simp [hl]

theorem is_defined_error_iff (st : RegState) (app lvl name : String) :
    is_defined st app lvl name = .error (.notDefined app name) ↔
      paramDefined st app lvl name = false := by
  unfold is_defined paramDefined
  by_cases hl : lvl ∈ levels
  · cases h : alGet st.params app with
    | none => simp [hl, h]
    | some ad =>
        by_cases hn : (alGet (levelTable ad lvl) name).isSome
        · simp [hl, h, hn]
        · simp [hl, h, hn]
  · simp [hl]

theorem lookupDef_isSome_of_defined {st : RegState} {app lvl name : String}
    (h : paramDefined st app lvl name = true) : ∃ d, lookupDef st app lvl name = some d := by
  unfold paramDefined at h
  unfold lookupDef
  cases hp : alGet st.params app with
  | none => simp [hp] at h
  | some ad =>
      simp [hp] at h
      exact Option.isSome_iff_exists.mp h.2

theorem get_param_def_of_defined {st : RegState} {app lvl name : String} {d : Dict}
    (hdef : paramDefined st app lvl name = true) (h : lookupDef st app lvl name = some d) :
    get_param_def st app lvl name = .ok d := by
  unfold get_param_def
  rw [(is_defined_ok_iff st app lvl name).mpr hdef, h]
  rfl

theorem get_param_def_ok_inv {st : RegState} {app lvl name : String} {d : Dict}
    (h : get_param_def st app lvl name = .ok d) :
    paramDefined st app lvl name = true ∧ lookupDef st app lvl name = some d := by
  unfold get_param_def at h
  cases hi : is_defined st app lvl name with
  | error e =>
      rw [hi] at h
      exact absurd h (by simp [Bind.bind, Except.bind])
  | ok u =>
      cases u
      have hdef : paramDefined st app lvl name = true := (is_defined_ok_iff _ _ _ _).mp hi
      refine ⟨hdef, ?_⟩
      rw [hi] at h
      cases hl : lookupDef st app lvl name with
      | none =>
          rw [hl] at h
          exact absurd h (by simp [Bind.bind, Except.bind])
      | some d0 =>
          rw [hl] at h
          simp [Bind.bind, Except.bind] at h
          rw [h]

theorem is_defined_error_of_undefined {st : RegState} {app lvl name : String}
    (h : paramDefined st app lvl name = false) :
    is_defined st app lvl name = .error (.notDefined app name) :=
  (is_defined_error_iff st app lvl name).mpr h

theorem hexVal_hexDigitChar {m : Nat} (h : m < 16) : hexVal (hexDigitChar m) = m := by
  interval_cases m <;> rfl

theorem pyIsSpaceChar_hexDigitChar {m : Nat} (h : m < 16) :
    pyIsSpaceChar (hexDigitChar m) = false := by
  interval_cases m <;> rfl

theorem decodeList_backslash (r : List Char) :
    decodeList ('\\' :: '\\' :: r) = '\\' :: decodeList r := rfl

theorem decodeList_tab (r : List Char) :
    decodeList ('\\' :: 't' :: r) = '\t' :: decodeList r := rfl

theorem decodeList_nl (r : List Char) :
    decodeList ('\\' :: 'n' :: r) = '\n' :: decodeList r := rfl

theorem decodeList_cr (r : List Char) :
    decodeList ('\\' :: 'r' :: r) = '\r' :: decodeList r := rfl

theorem decodeList_hex2 (h1 h2 : Char) (r : List Char) :
    decodeList ('\\' :: 'x' :: h1 :: h2 :: r) =
      Char.ofNat (16 * hexVal h1 + hexVal h2) :: decodeList r := rfl

theorem decodeList_hex4 (h1 h2 h3 h4 : Char) (r : List Char) :
    decodeList ('\\' :: 'u' :: h1 :: h2 :: h3 :: h4 :: r) =
      Char.ofNat (4096 * hexVal h1 + 256 * hexVal h2 + 16 * hexVal h3 + hexVal h4) ::
        decodeList r := rfl

theorem decodeList_hex8 (h1 h2 h3 h4 h5 h6 h7 h8 : Char) (r : List Char) :
    decodeList ('\\' :: 'U' :: h1 :: h2 :: h3 :: h4 :: h5 :: h6 :: h7 :: h8 :: r) =
      Char.ofNat (268435456 * hexVal h1 + 16777216 * hexVal h2 + 1048576 * hexVal h3 +
        65536 * hexVal h4 + 4096 * hexVal h5 + 256 * hexVal h6 + 16 * hexVal h7 + hexVal h8) ::
        decodeList r := rfl

set_option maxHeartbeats 1000000 in
theorem decodeList_cons_of_ne (c : Char) (r : List Char) (h : c ≠ '\\') :
    decodeList (c :: r) = c :: decodeList r := by
  rw [decodeList.eq_def]
  split
  · rename_i heq; injection heq with h1 _; exact absurd h1 h
  · rename_i heq; injection heq with h1 _; exact absurd h1 h
  · rename_i heq; injection heq with h1 _; exact absurd h1 h
  · rename_i heq; injection heq with h1 _; exact absurd h1 h
  · rename_i heq; injection heq with h1 _; exact absurd h1 h
  · rename_i heq; injection heq with h1 _; exact absurd h1 h
  · rename_i heq; injection heq with h1 _; exact absurd h1 h
  · rename_i heq; injection heq with h1 h2; rw [h1, h2]
  · rename_i heq; exact absurd heq (by simp)

theorem charToNat_lt (c : Char) : c.toNat < 4294967296 :=
  c.val.toNat_lt_size

theorem decode_encodeChar (c : Char) (r : List Char) :
    decodeList (encodeChar c ++ r) = c :: decodeList r := by
  unfold encodeChar
  split_ifs with h1 h2 h3 h4 h5 h6 h7 h8
  · subst h1; exact decodeList_backslash r
  · subst h2; exact decodeList_tab r
  · subst h3; exact decodeList_nl r
  · subst h4; exact decodeList_cr r
  · show decodeList ('\\' :: 'x' :: hexDigitChar (c.toNat / 16) ::
        hexDigitChar (c.toNat % 16) :: r) = c :: decodeList r
    rw [decodeList_hex2, hexVal_hexDigitChar (by omega),
      hexVal_hexDigitChar (Nat.mod_lt _ (by omega))]
    congr 1
    have he : 16 * (c.toNat / 16) + c.toNat % 16 = c.toNat := Nat.div_add_mod _ _
    rw [he, Char.ofNat_toNat]
  · exact decodeList_cons_of_ne c r h1
  · show decodeList ('\\' :: 'x' :: hexDigitChar (c.toNat / 16) ::
        hexDigitChar (c.toNat % 16) :: r) = c :: decodeList r
    rw [decodeList_hex2, hexVal_hexDigitChar (by omega),
      hexVal_hexDigitChar (Nat.mod_lt _ (by omega))]
    congr 1
    have he : 16 * (c.toNat / 16) + c.toNat % 16 = c.toNat := Nat.div_add_mod _ _
    rw [he, Char.ofNat_toNat]
  · show decodeList ('\\' :: 'u' :: hexDigitChar (c.toNat / 4096) ::
        hexDigitChar (c.toNat / 256 % 16) :: hexDigitChar (c.toNat / 16 % 16) ::
        hexDigitChar (c.toNat % 16) :: r) = c :: decodeList r
    rw [decodeList_hex4, hexVal_hexDigitChar (by omega),
      hexVal_hexDigitChar (Nat.mod_lt _ (by omega)),
      hexVal_hexDigitChar (Nat.mod_lt _ (by omega)),
      hexVal_hexDigitChar (Nat.mod_lt _ (by omega))]
    congr 1
    have he : 4096 * (c.toNat / 4096) + 256 * (c.toNat / 256 % 16) +
        16 * (c.toNat / 16 % 16) + c.toNat % 16 = c.toNat := by omega
    rw [he, Char.ofNat_toNat]
  · show decodeList ('\\' :: 'U' :: hexDigitChar (c.toNat / 268435456) ::
        hexDigitChar (c.toNat / 16777216 % 16) :: hexDigitChar (c.toNat / 1048576 % 16) ::
        hexDigitChar (c.toNat / 65536 % 16) :: hexDigitChar (c.toNat / 4096 % 16) ::
        hexDigitChar (c.toNat / 256 % 16) :: hexDigitChar (c.toNat / 16 % 16) ::
        hexDigitChar (c.toNat % 16) :: r) = c :: decodeList r
    have hb := charToNat_lt c
    rw [decodeList_hex8, hexVal_hexDigitChar (by omega),
      hexVal_hexDigitChar (Nat.mod_lt _ (by omega)),
      hexVal_hexDigitChar (Nat.mod_lt _ (by omega)),
      hexVal_hexDigitChar (Nat.mod_lt _ (by omega)),
      hexVal_hexDigitChar (Nat.mod_lt _ (by omega)),
      hexVal_hexDigitChar (Nat.mod_lt _ (by omega)),
      hexVal_hexDigitChar (Nat.mod_lt _ (by omega)),
      hexVal_hexDigitChar (Nat.mod_lt _ (by omega))]
    congr 1
    have he : 268435456 * (c.toNat / 268435456) + 16777216 * (c.toNat / 16777216 % 16) +
        1048576 * (c.toNat / 1048576 % 16) + 65536 * (c.toNat / 65536 % 16) +
        4096 * (c.toNat / 4096 % 16) + 256 * (c.toNat / 256 % 16) +
        16 * (c.toNat / 16 % 16) + c.toNat % 16 = c.toNat := by omega
    rw [he, Char.ofNat_toNat]

theorem decodeList_encodeList (l : List Char) : decodeList (encodeList l) = l := by
  induction l with
  | nil => rfl
  | cons c r ih => rw [encodeList, decode_encodeChar, ih]

theorem encodeList_append (a b : List Char) :
    encodeList (a ++ b) = encodeList a ++ encodeList b := by
  induction a with
  | nil => rfl
  | cons c r ih => simp [encodeList, ih]

theorem encodeChar_head {c : Char} (h : c ≠ ' ') :
    ∃ a t, encodeChar c = a :: t ∧ pyIsSpaceChar a = false := by
  unfold encodeChar
  split_ifs with h1 h2 h3 h4 h5 h6 h7 h8
  · exact ⟨'\\', _, rfl, rfl⟩
  · exact ⟨'\\', _, rfl, rfl⟩
  · exact ⟨'\\', _, rfl, rfl⟩
  · exact ⟨'\\', _, rfl, rfl⟩
  · exact ⟨'\\', _, rfl, rfl⟩
  · refine ⟨c, [], rfl, ?_⟩
    simp [pyIsSpaceChar, h, h2, h3, h4, show c.toNat ≠ 11 by omega,
      show c.toNat ≠ 12 by omega]
  · exact ⟨'\\', _, rfl, rfl⟩
  · exact ⟨'\\', _, rfl, rfl⟩
  · exact ⟨'\\', _, rfl, rfl⟩

theorem encodeChar_last {c : Char} (h : c ≠ ' ') :
    ∃ a t, encodeChar c = t ++ [a] ∧ pyIsSpaceChar a = false := by
  unfold encodeChar
  split_ifs with h1 h2 h3 h4 h5 h6 h7 h8
  · exact ⟨'\\', ['\\'], rfl, rfl⟩
  · exact ⟨'t', ['\\'], rfl, rfl⟩
  · exact ⟨'n', ['\\'], rfl, rfl⟩
  · exact ⟨'r', ['\\'], rfl, rfl⟩
  · exact ⟨hexDigitChar (c.toNat % 16), ['\\', 'x', hexDigitChar (c.toNat / 16)], rfl,
      pyIsSpaceChar_hexDigitChar (Nat.mod_lt _ (by omega))⟩
  · refine ⟨c, [], rfl, ?_⟩
    simp [pyIsSpaceChar, h, h2, h3, h4, show c.toNat ≠ 11 by omega,
      show c.toNat ≠ 12 by omega]
  · exact ⟨hexDigitChar (c.toNat % 16), ['\\', 'x', hexDigitChar (c.toNat / 16)], rfl,
      pyIsSpaceChar_hexDigitChar (Nat.mod_lt _ (by omega))⟩
  · exact ⟨hexDigitChar (c.toNat % 16), ['\\', 'u', hexDigitChar (c.toNat / 4096),
      hexDigitChar (c.toNat / 256 % 16), hexDigitChar (c.toNat / 16 % 16)], rfl,
      pyIsSpaceChar_hexDigitChar (Nat.mod_lt _ (by omega))⟩
  · exact ⟨hexDigitChar (c.toNat % 16), ['\\', 'U', hexDigitChar (c.toNat / 268435456),
      hexDigitChar (c.toNat / 16777216 % 16), hexDigitChar (c.toNat / 1048576 % 16),
      hexDigitChar (c.toNat / 65536 % 16), hexDigitChar (c.toNat / 4096 % 16),
      hexDigitChar (c.toNat / 256 % 16), hexDigitChar (c.toNat / 16 % 16)], rfl,
      pyIsSpaceChar_hexDigitChar (Nat.mod_lt _ (by omega))⟩

theorem dropWhile_encodeList (l : List Char) :
    (encodeList l).dropWhile pyIsSpaceChar = encodeList (l.dropWhile (· = ' ')) := by
  induction l with
  | nil => rfl
  | cons c r ih =>
      by_cases h : c = ' '
      · subst h
        calc (encodeList (' ' :: r)).dropWhile pyIsSpaceChar
            = (encodeList r).dropWhile pyIsSpaceChar := by
              rw [show encodeList (' ' :: r) = ' ' :: encodeList r from rfl,
                List.dropWhile_cons_of_pos (by rfl)]
          _ = encodeList (r.dropWhile (· = ' ')) := ih
          _ = encodeList ((' ' :: r).dropWhile (· = ' ')) := by
              rw [List.dropWhile_cons_of_pos (by simp)]
      · obtain ⟨a, t, he, ha⟩ := encodeChar_head h
        have hline : encodeList (c :: r) = a :: (t ++ encodeList r) := by
          rw [encodeList, he]
          simp
        rw [hline, List.dropWhile_cons_of_neg (by simp [ha]),
          List.dropWhile_cons_of_neg (by simp [h])]
        rw [← hline]

theorem reverse_dropWhile_encodeList (l : List Char) :
    ((encodeList l).reverse.dropWhile pyIsSpaceChar).reverse =
      encodeList ((l.reverse.dropWhile (· = ' ')).reverse) := by
  induction l using List.reverseRecOn with
  | nil => rfl
  | append_singleton xs x ih =>
      by_cases h : x = ' '
      · subst h
        calc ((encodeList (xs ++ [' '])).reverse.dropWhile pyIsSpaceChar).reverse
            = ((encodeList xs).reverse.dropWhile pyIsSpaceChar).reverse := by
              rw [encodeList_append,
                show encodeList [' '] = [' '] from rfl, List.reverse_append]
              rw [show ([' '] : List Char).reverse ++ (encodeList xs).reverse =
                ' ' :: (encodeList xs).reverse by simp]
              rw [List.dropWhile_cons_of_pos (by rfl)]
          _ = encodeList ((xs.reverse.dropWhile (· = ' ')).reverse) := ih
          _ = encodeList (((xs ++ [' ']).reverse.dropWhile (· = ' ')).reverse) := by
              rw [List.reverse_append,
                show ([' '] : List Char).reverse ++ xs.reverse = ' ' :: xs.reverse by simp,
                List.dropWhile_cons_of_pos (by simp)]
      · obtain ⟨a, t, he, ha⟩ := encodeChar_last h
        have hrev : (encodeList (xs ++ [x])).reverse =
            a :: (t.reverse ++ (encodeList xs).reverse) := by
          rw [encodeList_append, show encodeList [x] = encodeChar x ++ [] from rfl,
            List.append_nil, he]
          simp
        rw [hrev, List.dropWhile_cons_of_neg (by simp [ha]), ← hrev,
          List.reverse_reverse]
        rw [List.reverse_append, show ([x] : List Char).reverse ++ xs.reverse =
          x :: xs.reverse by simp, List.dropWhile_cons_of_neg (by simp [h])]
        simp

theorem stripList_encodeList (l : List Char) :
    stripList (encodeList l) = encodeList (stripSpaces l) := by
  unfold stripList stripSpaces
  rw [dropWhile_encodeList]
  exact reverse_dropWhile_encodeList _

theorem pyDecode_pyStrip_pyEncode (s : String) :
    pyDecode (pyStrip (pyEncode s)) = stripSpacesStr s := by
  unfold pyDecode pyStrip pyEncode stripSpacesStr
  show String.mk (decodeList (stripList (encodeList s.data))) = _
  rw [stripList_encodeList, decodeList_encodeList]

/-- Example registry: namespace `relay` with a single admin parameter
`timeout` whose default is `"30"` (the spec's running example). -/
def relayAd : AppData :=
  { aparams := [("timeout", [("deflt", Value.str "30")])],
    uparams := [], optionsA := none, optionsU := none }

/-- Registry state holding only the `relay` namespace. -/
def relaySt : RegState :=
  { params := [("relay", relayAd)], paramsOrder := [("relay", ⟨["timeout"], []⟩)] }

/-- Example registry entry with a user-level parameter and a user-level
`needs_mailbox` option. -/
def optAd : AppData :=
  { aparams := [],
    uparams := [("signature", [("deflt", Value.str "sig")])],
    optionsA := none,
    optionsU := some [("needs_mailbox", Value.bool true)] }

/-- Registry state holding only the `webmail` namespace. -/
def optSt : RegState :=
  { params := [("webmail", optAd)], paramsOrder := [("webmail", ⟨[], ["signature"]⟩)] }

theorem get_admin_of_override {st : RegState} {store : Store} {name app v : String}
    (hdef : paramDefined st app "A" name = true)
    (hv : alGet store (fullName app name) = some v) :
    get_admin st store name app = .ok (.str (pyDecode v)) := by
  unfold get_admin
  rw [(is_defined_ok_iff st app "A" name).mpr hdef]
  show (match alGet store (fullName app name) with
    | some v => Except.ok (Value.str (pyDecode v))
    | none => _) = _
  rw [hv]

theorem get_admin_of_default {st : RegState} {store : Store} {name app : String}
    {pdef : Dict} {d : Value}
    (hdef : paramDefined st app "A" name = true)
    (hl : lookupDef st app "A" name = some pdef)
    (hmiss : alGet store (fullName app name) = none)
    (hd : dictGet pdef "deflt" = some d) :
    get_admin st store name app = .ok d := by
  unfold get_admin
  rw [(is_defined_ok_iff st app "A" name).mpr hdef]
  show (match alGet store (fullName app name) with
    | some v => Except.ok (Value.str (pyDecode v))
    | none => _) = _
  rw [hmiss, hl]
  simp [hd]

theorem get_admin_no_default {st : RegState} {store : Store} {name app : String}
    {pdef : Dict}
    (hdef : paramDefined st app "A" name = true)
    (hl : lookupDef st app "A" name = some pdef)
    (hmiss : alGet store (fullName app name) = none)
    (hd : dictGet pdef "deflt" = none) :
    get_admin st store name app = .error (.keyError "deflt") := by
  unfold get_admin
  rw [(is_defined_ok_iff st app "A" name).mpr hdef]
  show (match alGet store (fullName app name) with
    | some v => Except.ok (Value.str (pyDecode v))
    | none => _) = _
  rw [hmiss, hl]
  simp [hd]

theorem get_user_of_override {st : RegState} {ustore : UStore} {user : User}
    {name app v : String}
    (hdef : paramDefined st app "U" name = true)
    (hv : alGet ustore (user.name, fullName app name) = some v) :
    get_user st ustore user name app = .ok (.str (pyDecode v)) := by
  unfold get_user
  rw [(is_defined_ok_iff st app "U" name).mpr hdef]
  show (match alGet ustore (user.name, fullName app name) with
    | some v => Except.ok (Value.str (pyDecode v))
    | none => _) = _
  rw [hv]

theorem get_user_of_default {st : RegState} {ustore : UStore} {user : User}
    {name app : String} {pdef : Dict} {d : Value}
    (hdef : paramDefined st app "U" name = true)
    (hl : lookupDef st app "U" name = some pdef)
    (hmiss : alGet ustore (user.name, fullName app name) = none)
    (hd : dictGet pdef "deflt" = some d) :
    get_user st ustore user name app = .ok d := by
  unfold get_user
  rw [(is_defined_ok_iff st app "U" name).mpr hdef]
  show (match alGet ustore (user.name, fullName app name) with
    | some v => Except.ok (Value.str (pyDecode v))
    | none => _) = _
  rw [hmiss, hl]
  simp [hd]

theorem get_user_no_default {st : RegState} {ustore : UStore} {user : User}
    {name app : String} {pdef : Dict}
    (hdef : paramDefined st app "U" name = true)
    (hl : lookupDef st app "U" name = some pdef)
    (hmiss : alGet ustore (user.name, fullName app name) = none)
    (hd : dictGet pdef "deflt" = none) :
    get_user st ustore user name app = .error (.keyError "deflt") := by
  unfold get_user
  rw [(is_defined_ok_iff st app "U" name).mpr hdef]
  show (match alGet ustore (user.name, fullName app name) with
    | some v => Except.ok (Value.str (pyDecode v))
    | none => _) = _
  rw [hmiss, hl]
  simp [hd]

theorem charListLe_total (a b : List Char) : charListLe a b = true ∨ charListLe b a = true := by
  induction a generalizing b with
  | nil => exact Or.inl rfl
  | cons x xs ih =>
      cases b with
      | nil => exact Or.inr rfl
      | cons y ys =>
          rcases Nat.lt_trichotomy x.toNat y.toNat with h | h | h
          · exact Or.inl (by simp [charListLe, h])
          · rcases ih ys with h2 | h2
            · exact Or.inl (by simp [charListLe, h, h2, Nat.lt_irrefl])
            · exact Or.inr (by simp [charListLe, h.symm, h2, Nat.lt_irrefl])
          · exact Or.inr (by simp [charListLe, h])

theorem charListLe_trans {a b c : List Char} (h1 : charListLe a b = true)
    (h2 : charListLe b c = true) : charListLe a c = true := by
  induction a generalizing b c with
  | nil => rfl
  | cons x xs ih =>
      cases b with
      | nil => simp [charListLe] at h1
      | cons y ys =>
          cases c with
          | nil => simp [charListLe] at h2
          | cons z zs =>
              simp only [charListLe] at h1 h2 ⊢
              rcases Nat.lt_trichotomy x.toNat y.toNat with hxy | hxy | hxy
              · rcases Nat.lt_trichotomy y.toNat z.toNat with hyz | hyz | hyz
                · simp [Nat.lt_trans hxy hyz]
                · simp [hyz ▸ hxy]
                · rw [if_neg (by omega), if_neg (by omega)] at h2
                  exact absurd h2 (by simp)
              · rcases Nat.lt_trichotomy y.toNat z.toNat with hyz | hyz | hyz
                · simp [hxy ▸ hyz]
                · rw [if_neg (by omega), if_pos (by omega)]
                  rw [if_neg (by omega), if_pos hxy] at h1
                  rw [if_neg (by omega), if_pos hyz] at h2
                  exact ih h1 h2
                · rw [if_neg (by omega), if_neg (by omega)] at h2
                  exact absurd h2 (by simp)
              · rw [if_neg (by omega), if_neg (by omega)] at h1
                exact absurd h1 (by simp)

instance : IsTotal String (fun a b => pyStrLe a b = true) :=
  ⟨fun a b => charListLe_total a.data b.data⟩

instance : IsTrans String (fun a b => pyStrLe a b = true) :=
  ⟨fun _ _ _ h1 h2 => charListLe_trans h1 h2⟩

theorem get_admin_undefined {st : RegState} {store : Store} {name app : String}
    (h : paramDefined st app "A" name = false) :
    get_admin st store name app = .error (.notDefined app name) := by
  unfold get_admin
  rw [is_defined_error_of_undefined h]
  rfl

theorem save_admin_undefined {st : RegState} {store : Store} {name value app : String}
    (h : paramDefined st app "A" name = false) :
    save_admin st store name value app = .error (.notDefined app name) := by
  unfold save_admin
  rw [is_defined_error_of_undefined h]
  rfl

theorem get_user_undefined {st : RegState} {ustore : UStore} {user : User}
    {name app : String} (h : paramDefined st app "U" name = false) :
    get_user st ustore user name app = .error (.notDefined app name) := by
  unfold get_user
  rw [is_defined_error_of_undefined h]
  rfl

theorem save_user_undefined {st : RegState} {ustore : UStore} {user : User}
    {name value app : String} (h : paramDefined st app "U" name = false) :
    save_user st ustore user name value app = .error (.notDefined app name) := by
  unfold save_user
  rw [is_defined_error_of_undefined h]
  rfl

/-- C1 (counterexample): `get_app_option` on a namespace that was never
registered raises `KeyError` instead of returning the supplied default,
so the claim that it never fails is false. -/
theorem get_app_option_unregistered_raises :
    get_app_option emptyState "A" "needs_mailbox" (Value.str "dflt") "ghost" =
      .error (.keyError "ghost") ∧
    (Except.error (PyErr.keyError "ghost") : Except PyErr Value) ≠
      .ok (Value.str "dflt") := by
  exact ⟨rfl, by decide⟩

theorem get_app_option_registered {st : RegState} {app : String} {ad : AppData}
    (h : alGet st.params app = some ad) (lvl name : String) (dflt : Value) :
    get_app_option st lvl name dflt app =
      (match optionsFor ad lvl with
       | none => .ok dflt
       | some od =>
         match dictGet od name with
         | none => .ok dflt
         | some v => .ok v) := by
  unfold get_app_option
  rw [h]

/-- C1 (amended): provided the namespace is registered, `get_app_option`
never raises: it returns the stored option value when the level/name
combination exists and the supplied default otherwise. -/
theorem get_app_option_amended (st : RegState) (lvl name : String) (dflt : Value)
    (app : String) (ad : AppData) (h : alGet st.params app = some ad) :
    (∃ v, get_app_option st lvl name dflt app = .ok v) ∧
    (∀ od v, optionsFor ad lvl = some od → dictGet od name = some v →
      get_app_option st lvl name dflt app = .ok v) ∧
    ((optionsFor ad lvl).bind (fun od => dictGet od name) = none →
      get_app_option st lvl name dflt app = .ok dflt) := by
  rw [get_app_option_registered h lvl name dflt]
  refine ⟨?_, ?_, ?_⟩
  · cases ho : optionsFor ad lvl with
    | none => exact ⟨dflt, rfl⟩
    | some od =>
        cases hd : dictGet od name with
        | none => exact ⟨dflt, by simp [ho, hd]⟩
        | some v => exact ⟨v, by simp [ho, hd]⟩
  · intro od v ho hd
    simp [ho, hd]
  · intro hn
    cases ho : optionsFor ad lvl with
    | none => rfl
    | some od =>
        rw [ho] at hn
        simp only [Option.some_bind] at hn
        simp [hn]

/-- C1 (witness for the amended theorem): on the `webmail` namespace the
stored user-level `needs_mailbox` option is returned. -/
theorem get_app_option_amended_witness :
    get_app_option optSt "U" "needs_mailbox" (Value.bool false) "webmail" =
      .ok (Value.bool true) :=
  (get_app_option_amended optSt "U" "needs_mailbox" (Value.bool false) "webmail" optAd
    (by decide)).2.1 [("needs_mailbox", Value.bool true)] (Value.bool true) (by decide) (by decide)

/-- C5: `get_param_def` fails with `NotDefined(app, name)` exactly when
the level is unrecognized, the namespace is unregistered, or the name is
not registered at that level; the same check makes the four value
operations fail with `NotDefined` for unregistered parameters. -/
theorem not_defined_error_iff (st : RegState) (app lvl name : String) :
    (get_param_def st app lvl name = .error (.notDefined app name) ↔
      paramDefined st app lvl name = false) ∧
    (paramDefined st app "A" name = false →
      ∀ (store : Store) (value : String),
        get_admin st store name app = .error (.notDefined app name) ∧
        save_admin st store name value app = .error (.notDefined app name)) ∧
    (paramDefined st app "U" name = false →
      ∀ (ustore : UStore) (user : User) (value : String),
        get_user st ustore user name app = .error (.notDefined app name) ∧
        save_user st ustore user name value app = .error (.notDefined app name)) := by
  refine ⟨⟨?_, ?_⟩, ?_, ?_⟩
  · intro h
    cases hx : paramDefined st app lvl name
    · rfl
    · exfalso
      have hok := (is_defined_ok_iff st app lvl name).mpr hx
      obtain ⟨d, hd⟩ := lookupDef_isSome_of_defined hx
      unfold get_param_def at h
      rw [hok] at h
      simp [Bind.bind, Except.bind, hd] at h
  · intro h
    unfold get_param_def
    rw [is_defined_error_of_undefined h]
    rfl
  · intro h store value
    exact ⟨get_admin_undefined h, save_admin_undefined h⟩
  · intro h ustore user value
    exact ⟨get_user_undefined h, save_user_undefined h⟩

/-- C5 (witness): an unrecognized level and an unregistered namespace
both produce `NotDefined`. -/
theorem not_defined_error_iff_witness :
    get_param_def relaySt "relay" "Z" "timeout" = .error (.notDefined "relay" "timeout") ∧
    get_admin emptyState [] "timeout" "ghost" = .error (.notDefined "ghost" "timeout") :=
  ⟨(not_defined_error_iff relaySt "relay" "Z" "timeout").1.mpr (by decide),
   ((not_defined_error_iff emptyState "ghost" "A" "timeout").2.1 (by decide) [] "x").1⟩

/-- Example registry entry whose parameters have no `deflt` metadata. -/
def bareAd : AppData :=
  { aparams := [("p", [])], uparams := [("q", [])], optionsA := none, optionsU := none }

/-- Registry state holding only the `ns` namespace with `deflt`-less
parameters. -/
def bareSt : RegState :=
  { params := [("ns", bareAd)], paramsOrder := [("ns", ⟨["p"], ["q"]⟩)] }

/-- C10: a registered parameter with neither a stored override nor a
`deflt` metadata key makes `get_admin`/`get_user` fail with a raw
`KeyError`, not with `NotDefined`. -/
theorem get_value_missing_default_keyerror :
    (∀ (st : RegState) (store : Store) (name app : String) (pdef : Dict),
      get_param_def st app "A" name = .ok pdef →
      alGet store (fullName app name) = none →
      dictGet pdef "deflt" = none →
      get_admin st store name app = .error (.keyError "deflt") ∧
      ∀ a n, get_admin st store name app ≠ .error (.notDefined a n)) ∧
    (∀ (st : RegState) (ustore : UStore) (user : User) (name app : String) (pdef : Dict),
      get_param_def st app "U" name = .ok pdef →
      alGet ustore (user.name, fullName app name) = none →
      dictGet pdef "deflt" = none →
      get_user st ustore user name app = .error (.keyError "deflt") ∧
      ∀ a n, get_user st ustore user name app ≠ .error (.notDefined a n)) := by
  constructor
  · intro st store name app pdef hpd hmiss hd
    obtain ⟨hdef, hl⟩ := get_param_def_ok_inv hpd
    have he := get_admin_no_default hdef hl hmiss hd
    refine ⟨he, ?_⟩
    intro a n hcontra
    rw [he] at hcontra
    exact absurd hcontra (by simp)
  · intro st ustore user name app pdef hpd hmiss hd
    obtain ⟨hdef, hl⟩ := get_param_def_ok_inv hpd
    have he := get_user_no_default hdef hl hmiss hd
    refine ⟨he, ?_⟩
    intro a n hcontra
    rw [he] at hcontra
    exact absurd hcontra (by simp)

/-- C10 (witness): parameter `p` of namespace `ns` has no default and no
override, so reading it raises `KeyError`. -/
theorem get_value_missing_default_keyerror_witness :
    get_admin bareSt [] "p" "ns" = .error (.keyError "deflt") :=
  ((get_value_missing_default_keyerror).1 bareSt [] "p" "ns" [] rfl (by decide)
    (by decide)).1

/-- C4: with no override record, `get_admin`/`get_user` return exactly
the metadata's `deflt` entry; concretely, registering `relay.timeout`
with default `"30"` makes `get_admin` return `"30"`, and after saving
`"60"` it returns `"60"`. -/
theorem get_value_default_fallback :
    (∀ (st : RegState) (store : Store) (name app : String) (pdef : Dict) (d : Value),
      get_param_def st app "A" name = .ok pdef →
      dictGet pdef "deflt" = some d →
      alGet store (fullName app name) = none →
      get_admin st store name app = .ok d) ∧
    (∀ (st : RegState) (ustore : UStore) (user : User) (name app : String)
        (pdef : Dict) (d : Value),
      get_param_def st app "U" name = .ok pdef →
      dictGet pdef "deflt" = some d →
      alGet ustore (user.name, fullName app name) = none →
      get_user st ustore user name app = .ok d) ∧
    register_param emptyState "relay" "A" "timeout" [("deflt", Value.str "30")] =
      .ok relaySt ∧
    get_admin relaySt [] "timeout" "relay" = .ok (.str "30") ∧
    save_admin relaySt [] "timeout" "60" "relay" =
      .ok ([("relay.timeout", "60")], [.persist "relay.timeout" "60"]) ∧
    get_admin relaySt [("relay.timeout", "60")] "timeout" "relay" = .ok (.str "60") := by
  refine ⟨?_, ?_, rfl, rfl, rfl, rfl⟩
  · intro st store name app pdef d hpd hd hmiss
    obtain ⟨hdef, hl⟩ := get_param_def_ok_inv hpd
    exact get_admin_of_default hdef hl hmiss hd
  · intro st ustore user name app pdef d hpd hd hmiss
    obtain ⟨hdef, hl⟩ := get_param_def_ok_inv hpd
    exact get_user_of_default hdef hl hmiss hd

/-- C4 (witness): the user-level default of `webmail.signature` is
returned when no user override exists. -/
theorem get_value_default_fallback_witness :
    get_user optSt [] ⟨"alice", true⟩ "signature" "webmail" = .ok (.str "sig") :=
  (get_value_default_fallback).2.1 optSt [] ⟨"alice", true⟩ "signature" "webmail"
    [("deflt", Value.str "sig")] (.str "sig") rfl (by decide) (by decide)

theorem save_admin_eval {st : RegState} {name app : String} (store : Store) (value : String)
    {pdef : Dict} (hdef : paramDefined st app "A" name = true)
    (hl : lookupDef st app "A" name = some pdef) :
    save_admin st store name value app =
      if (match alGet store (fullName app name) with
          | some v0 => v0 != value
          | none => true) = true
      then .ok (alSet store (fullName app name) (pyStrip (pyEncode value)),
        (match dictGet pdef "modify_cb" with
         | some f => [Event.callback f value]
         | none => []) ++ [Event.persist (fullName app name) (pyStrip (pyEncode value))])
      else .ok (store, []) := by
  unfold save_admin
  rw [(is_defined_ok_iff st app "A" name).mpr hdef, get_param_def_of_defined hdef hl]
  rfl

theorem save_user_eval {st : RegState} {name app : String} (ustore : UStore) (user : User)
    (value : String) {pdef : Dict} (hdef : paramDefined st app "U" name = true)
    (hl : lookupDef st app "U" name = some pdef) :
    save_user st ustore user name value app =
      if (match alGet ustore (user.name, fullName app name) with
          | some v0 => v0 != value
          | none => true) = true
      then .ok (alSet ustore (user.name, fullName app name) (pyStrip (pyEncode value)),
        (match dictGet pdef "modify_cb" with
         | some f => [Event.callback f value]
         | none => []) ++ [Event.persist (fullName app name) (pyStrip (pyEncode value))])
      else .ok (ustore, []) := by
  unfold save_user
  rw [(is_defined_ok_iff st app "U" name).mpr hdef, get_param_def_of_defined hdef hl]
  rfl

/-- C2: with a record present, saving the currently stored value skips
the callback and the store write; saving a different value invokes the
callback exactly once, before the persist, at both levels. -/
theorem save_value_callback_behaviour :
    (∀ (st : RegState) (store : Store) (name value app : String) (pdef : Dict)
        (f : Value) (s0 : String),
      get_param_def st app "A" name = .ok pdef →
      dictGet pdef "modify_cb" = some f →
      alGet store (fullName app name) = some s0 →
      (value = s0 → save_admin st store name value app = .ok (store, [])) ∧
      (value ≠ s0 →
        save_admin st store name value app =
          .ok (alSet store (fullName app name) (pyStrip (pyEncode value)),
            [.callback f value, .persist (fullName app name) (pyStrip (pyEncode value))]))) ∧
    (∀ (st : RegState) (ustore : UStore) (user : User) (name value app : String)
        (pdef : Dict) (f : Value) (s0 : String),
      get_param_def st app "U" name = .ok pdef →
      dictGet pdef "modify_cb" = some f →
      alGet ustore (user.name, fullName app name) = some s0 →
      (value = s0 → save_user st ustore user name value app = .ok (ustore, [])) ∧
      (value ≠ s0 →
        save_user st ustore user name value app =
          .ok (alSet ustore (user.name, fullName app name) (pyStrip (pyEncode value)),
            [.callback f value, .persist (fullName app name) (pyStrip (pyEncode value))]))) := by
  constructor
  · intro st store name value app pdef f s0 hpd hcb hs
    obtain ⟨hdef, hl⟩ := get_param_def_ok_inv hpd
    rw [save_admin_eval store value hdef hl, hs]
    constructor
    · intro he
      subst he
      simp
    · intro hne
      have hbne : (s0 != value) = true := bne_iff_ne.mpr (fun h => hne h.symm)
      simp [hbne, hcb]
  · intro st ustore user name value app pdef f s0 hpd hcb hs
    obtain ⟨hdef, hl⟩ := get_param_def_ok_inv hpd
    rw [save_user_eval ustore user value hdef hl, hs]
    constructor
    · intro he
      subst he
      simp
    · intro hne
      have hbne : (s0 != value) = true := bne_iff_ne.mpr (fun h => hne h.symm)
      simp [hbne, hcb]

/-- Example registry entry whose parameters carry change callbacks. -/
def cbAd : AppData :=
  { aparams := [("timeout", [("deflt", Value.str "30"), ("modify_cb", Value.cb "on_change")])],
    uparams := [("signature", [("modify_cb", Value.cb "on_usig")])],
    optionsA := none, optionsU := none }

/-- Registry state for the callback examples. -/
def cbSt : RegState :=
  { params := [("relay", cbAd)], paramsOrder := [("relay", ⟨["timeout"], ["signature"]⟩)] }

/-- C2 (witness): saving the stored value is silent; saving a new value
emits exactly one callback followed by the persist. -/
theorem save_value_callback_behaviour_witness :
    save_admin cbSt [("relay.timeout", "30")] "timeout" "30" "relay" =
      .ok ([("relay.timeout", "30")], []) ∧
    save_admin cbSt [("relay.timeout", "30")] "timeout" "60" "relay" =
      .ok (alSet [("relay.timeout", "30")] (fullName "relay" "timeout")
          (pyStrip (pyEncode "60")),
        [.callback (.cb "on_change") "60",
         .persist (fullName "relay" "timeout") (pyStrip (pyEncode "60"))]) :=
  ⟨((save_value_callback_behaviour).1 cbSt [("relay.timeout", "30")] "timeout" "30" "relay"
      [("deflt", Value.str "30"), ("modify_cb", Value.cb "on_change")] (.cb "on_change") "30"
      rfl (by decide) (by decide)).1 rfl,
   ((save_value_callback_behaviour).1 cbSt [("relay.timeout", "30")] "timeout" "60" "relay"
      [("deflt", Value.str "30"), ("modify_cb", Value.cb "on_change")] (.cb "on_change") "30"
      rfl (by decide) (by decide)).2 (by decide)⟩

/-- C3 (counterexample): saving `"a "` then reading back yields `"a"`:
a trailing space survives the unicode escape encoding literally and is
then removed by `strip()`, so save-then-get is not the identity. -/
theorem save_roundtrip_counterexample :
    save_admin relaySt [] "timeout" "a " "relay" =
      .ok ([("relay.timeout", "a")], [.persist "relay.timeout" "a"]) ∧
    get_admin relaySt [("relay.timeout", "a")] "timeout" "relay" = .ok (.str "a") ∧
    (Value.str "a" : Value) ≠ .str "a " := ⟨rfl, rfl, by decide⟩

/-- C3 (amended): whenever the save persists (the value differs from the
stored record, in particular when no record exists), save-then-get
returns the value with leading and trailing spaces removed; it is the
identity exactly on values without leading or trailing spaces. -/
theorem save_roundtrip_strips_spaces :
    ∀ (st : RegState) (store : Store) (name value app : String) (pdef : Dict),
      get_param_def st app "A" name = .ok pdef →
      (alGet store (fullName app name) = none ∨
        (∃ v0, alGet store (fullName app name) = some v0 ∧ v0 ≠ value)) →
      save_admin st store name value app =
        .ok (alSet store (fullName app name) (pyStrip (pyEncode value)),
          (match dictGet pdef "modify_cb" with
           | some f => [Event.callback f value]
           | none => []) ++
            [.persist (fullName app name) (pyStrip (pyEncode value))]) ∧
      get_admin st (alSet store (fullName app name) (pyStrip (pyEncode value))) name app =
        .ok (.str (stripSpacesStr value)) := by
  intro st store name value app pdef hpd hdiff
  obtain ⟨hdef, hl⟩ := get_param_def_ok_inv hpd
  constructor
  · rw [save_admin_eval store value hdef hl]
    rcases hdiff with hmiss | ⟨v0, hv0, hne⟩
    · rw [hmiss]
      rfl
    · rw [hv0]
      simp [bne_iff_ne.mpr hne]
  · rw [get_admin_of_override hdef (alGet_alSet_self store (fullName app name)
      (pyStrip (pyEncode value))), pyDecode_pyStrip_pyEncode]

/-- C3 (witness): a string with an embedded accent and tab round-trips
unchanged. -/
theorem save_roundtrip_strips_spaces_witness :
    get_admin relaySt (alSet [] (fullName "relay" "timeout")
        (pyStrip (pyEncode "héllo\tworld"))) "timeout" "relay" =
      .ok (.str "héllo\tworld") := by
  have h := save_roundtrip_strips_spaces relaySt [] "timeout" "héllo\tworld" "relay"
    [("deflt", Value.str "30")] rfl (Or.inl rfl)
  rw [h.2]
  rfl

theorem levelTable_set {ad : AppData} {lvl : String} (h : lvl ∈ levels)
    (tbl : List (String × Dict)) : levelTable (setLevelTable ad lvl tbl) lvl = tbl := by
  simp only [levels, List.mem_cons, List.mem_singleton, List.not_mem_nil, or_false] at h
  rcases h with h | h <;> subst h <;> simp [levelTable, setLevelTable]

theorem levelOrder_set {o : AppOrder} {lvl : String} (h : lvl ∈ levels)
    (ord : List String) : levelOrder (setLevelOrder o lvl ord) lvl = ord := by
  simp only [levels, List.mem_cons, List.mem_singleton, List.not_mem_nil, or_false] at h
  rcases h with h | h <;> subst h <;> simp [levelOrder, setLevelOrder]

theorem levelTable_empty (lvl : String) : levelTable emptyAppData lvl = [] := by
  unfold levelTable emptyAppData
  split_ifs <;> rfl

theorem levelOrder_empty (lvl : String) : levelOrder ⟨[], []⟩ lvl = [] := by
  unfold levelOrder
  split_ifs <;> rfl

theorem register_app_fresh {st : RegState} {app : String} (hp : alGet st.params app = none) :
    register_app st app [] [] =
      { params := alSet st.params app emptyAppData,
        paramsOrder := alSet st.paramsOrder app ⟨[], []⟩ } := by
  unfold register_app
  rw [hp]
  rfl

theorem register_param_invalid {st : RegState} {app lvl name : String} {kwargs : Dict}
    (hlvl : lvl ∉ levels) (hp : alGet st.params app = none) :
    register_param st app lvl name kwargs = .ok (register_app st app [] []) := by
  unfold register_param
  simp [hp, hlvl]

theorem register_param_existing_step {st : RegState} {app lvl name : String} {kwargs : Dict}
    {ad0 : AppData} {o0 : AppOrder}
    (hlvl : lvl ∈ levels)
    (hp : alGet st.params app = some ad0)
    (hname : alGet (levelTable ad0 lvl) name = none)
    (ho : alGet st.paramsOrder app = some o0) :
    register_param st app lvl name kwargs = .ok
      { params := alSet st.params app
          (setLevelTable ad0 lvl (alSet (levelTable ad0 lvl) name (kwargsApply [] kwargs))),
        paramsOrder := alSet st.paramsOrder app
          (setLevelOrder o0 lvl (levelOrder o0 lvl ++ [name])) } := by
  unfold register_param
  simp [hp, hlvl, hname, ho]

theorem register_param_noop {st : RegState} {app lvl name : String} {kwargs : Dict}
    {ad0 : AppData}
    (hlvl : lvl ∈ levels)
    (hp : alGet st.params app = some ad0)
    (hname : (alGet (levelTable ad0 lvl) name).isSome = true) :
    register_param st app lvl name kwargs = .ok st := by
  unfold register_param
  simp [hp, hlvl, hname]

theorem register_param_fresh_step {st : RegState} {app lvl name : String} {kwargs : Dict}
    (hlvl : lvl ∈ levels) (hp : alGet st.params app = none) :
    register_param st app lvl name kwargs = .ok
      { params := alSet (alSet st.params app emptyAppData) app
          (setLevelTable emptyAppData lvl [(name, kwargsApply [] kwargs)]),
        paramsOrder := alSet (alSet st.paramsOrder app ⟨[], []⟩) app
          (setLevelOrder ⟨[], []⟩ lvl [name]) } := by
  unfold register_param
  rw [hp]
  simp only [Option.isSome_none, Bool.false_eq_true, if_false, register_app_fresh hp]
  simp [hlvl, alGet_alSet_self, levelTable_empty, levelOrder_empty, alGet]
  rfl

/-- C9: registering with an unknown namespace and an unrecognized level
still auto-creates the namespace, with empty parameter tables, empty
order lists and no options, registers no parameter, and leaves every
other namespace untouched. -/
theorem register_invalid_level_autocreates :
    ∀ (st : RegState) (app lvl name : String) (kwargs : Dict),
      alGet st.params app = none → lvl ∉ levels →
      ∃ st', register_param st app lvl name kwargs = .ok st' ∧
        alGet st'.params app = some emptyAppData ∧
        alGet st'.paramsOrder app = some ⟨[], []⟩ ∧
        lookupDef st' app "A" name = none ∧
        lookupDef st' app "U" name = none ∧
        (∀ b, b ≠ app → alGet st'.params b = alGet st.params b) ∧
        (∀ b, b ≠ app → alGet st'.paramsOrder b = alGet st.paramsOrder b) := by
  intro st app lvl name kwargs hp hlvl
  refine ⟨register_app st app [] [], register_param_invalid hlvl hp, ?_, ?_, ?_, ?_, ?_, ?_⟩
  · rw [register_app_fresh hp]
    exact alGet_alSet_self st.params app emptyAppData
  · rw [register_app_fresh hp]
    exact alGet_alSet_self st.paramsOrder app ⟨[], []⟩
  · unfold lookupDef
    rw [register_app_fresh hp]
    simp [alGet_alSet_self, levelTable_empty, alGet]
  · unfold lookupDef
    rw [register_app_fresh hp]
    simp [alGet_alSet_self, levelTable_empty, alGet]
  · intro b hb
    rw [register_app_fresh hp]
    exact alGet_alSet_ne st.params app b emptyAppData hb
  · intro b hb
    rw [register_app_fresh hp]
    exact alGet_alSet_ne st.paramsOrder app b ⟨[], []⟩ hb

/-- C9 (witness): an unknown namespace and the invalid level `"Z"`. -/
theorem register_invalid_level_autocreates_witness :
    ∃ st', register_param emptyState "box" "Z" "p" [] = .ok st' ∧
      alGet st'.params "box" = some emptyAppData ∧
      lookupDef st' "box" "A" "p" = none := by
  obtain ⟨st', h1, h2, _, h4, _, _, _⟩ :=
    register_invalid_level_autocreates emptyState "box" "Z" "p" [] rfl (by decide)
  exact ⟨st', h1, h2, h4⟩

/-- C6: registering the same (namespace, level, name) twice leaves the
first metadata stored, the second call a no-op, and the name exactly
once in the level's order list. -/
theorem register_twice_first_wins :
    ∀ (st : RegState) (app lvl name : String) (m1 m2 : Dict),
      lvl ∈ levels →
      ((alGet st.params app).isSome → (alGet st.paramsOrder app).isSome) →
      lookupDef st app lvl name = none →
      (∀ o, alGet st.paramsOrder app = some o → name ∉ levelOrder o lvl) →
      (alKeys m1).Nodup →
      ∃ st1, register_param st app lvl name m1 = .ok st1 ∧
        register_param st1 app lvl name m2 = .ok st1 ∧
        lookupDef st1 app lvl name = some m1 ∧
        ∃ o1, alGet st1.paramsOrder app = some o1 ∧
          List.count name (levelOrder o1 lvl) = 1 := by
  intro st app lvl name m1 m2 hlvl hwf hfresh horder hnodup
  cases hp : alGet st.params app with
  | some ad0 =>
      obtain ⟨o0, ho0⟩ : ∃ o0, alGet st.paramsOrder app = some o0 :=
        Option.isSome_iff_exists.mp (hwf (by rw [hp]; rfl))
      have hname : alGet (levelTable ad0 lvl) name = none := by
        unfold lookupDef at hfresh
        rw [hp] at hfresh
        exact hfresh
      refine ⟨_, register_param_existing_step hlvl hp hname ho0, ?_, ?_, ?_⟩
      · exact register_param_noop hlvl (alGet_alSet_self _ _ _)
          (by rw [levelTable_set hlvl, alGet_alSet_self]; rfl)
      · unfold lookupDef
        rw [alGet_alSet_self]
        show alGet (levelTable (setLevelTable ad0 lvl
          (alSet (levelTable ad0 lvl) name (kwargsApply [] m1))) lvl) name = some m1
        rw [levelTable_set hlvl, alGet_alSet_self, kwargsApply_nil m1 hnodup]
      · refine ⟨_, alGet_alSet_self _ _ _, ?_⟩
        rw [levelOrder_set hlvl, List.count_append]
        rw [List.count_eq_zero.mpr (horder o0 ho0)]
        simp
  | none =>
      refine ⟨_, register_param_fresh_step hlvl hp, ?_, ?_, ?_⟩
      · exact register_param_noop hlvl (alGet_alSet_self _ _ _)
          (by rw [levelTable_set hlvl]; simp [alGet])
      · unfold lookupDef
        rw [alGet_alSet_self]
        show alGet (levelTable (setLevelTable emptyAppData lvl
          [(name, kwargsApply [] m1)]) lvl) name = some m1
        rw [levelTable_set hlvl]
        simp [alGet, kwargsApply_nil m1 hnodup]
      · refine ⟨_, alGet_alSet_self _ _ _, ?_⟩
        rw [levelOrder_set hlvl]
        simp

/-- C6 (witness): registering `relay.x` twice keeps the first default. -/
theorem register_twice_first_wins_witness :
    ∃ st1, register_param emptyState "relay" "A" "x" [("deflt", Value.str "1")] = .ok st1 ∧
      register_param st1 "relay" "A" "x" [("deflt", Value.str "2")] = .ok st1 ∧
      lookupDef st1 "relay" "A" "x" = some [("deflt", Value.str "1")] := by
  obtain ⟨st1, h1, h2, h3, _⟩ :=
    register_twice_first_wins emptyState "relay" "A" "x"
      [("deflt", Value.str "1")] [("deflt", Value.str "2")]
      (by decide) (fun h => absurd h (by decide)) rfl
      (fun o h => Option.noConfusion h) (by decide)
  exact ⟨st1, h1, h2, h3⟩

theorem adminParamsLoop_ok {st : RegState} {store : Store} {app : String} :
    ∀ {l : List String} {ps : List Dict}, adminParamsLoop st store app l = .ok ps →
      ps.length = l.length ∧
      ∀ (i : Nat) (p : String), l[i]? = some p → ∃ d0 v,
        lookupDef st app "A" p = some d0 ∧
        get_admin st store p app = .ok v ∧
        ps[i]? = some (dictSet (dictSet d0 "name" (.str p)) "value" v) := by
  intro l
  induction l with
  | nil =>
      intro ps h
      unfold adminParamsLoop at h
      obtain rfl : ([] : List Dict) = ps := Except.ok.inj h
      exact ⟨rfl, fun i p hip => absurd hip (by simp)⟩
  | cons p rest ih =>
      intro ps h
      unfold adminParamsLoop at h
      cases hl : lookupDef st app "A" p with
      | none => rw [hl] at h; exact absurd h (by simp)
      | some d0 =>
          rw [hl] at h
          replace h : (do
              let v ← get_admin st store p app
              let tail ← adminParamsLoop st store app rest
              Except.ok (dictSet (dictSet d0 "name" (.str p)) "value" v :: tail)) =
              Except.ok ps := h
          cases hv : get_admin st store p app with
          | error e => rw [hv] at h; exact absurd h (by simp [Bind.bind, Except.bind])
          | ok v =>
              rw [hv] at h
              cases ht : adminParamsLoop st store app rest with
              | error e => rw [ht] at h; exact absurd h (by simp [Bind.bind, Except.bind])
              | ok tail =>
                  rw [ht] at h
                  simp only [Bind.bind, Except.bind] at h
                  obtain rfl : dictSet (dictSet d0 "name" (.str p)) "value" v :: tail = ps :=
                    Except.ok.inj h
                  obtain ⟨hlen, hpt⟩ := ih ht
                  refine ⟨by simp [hlen], ?_⟩
                  intro i q hiq
                  cases i with
                  | zero =>
                      obtain rfl : p = q := by simpa using hiq
                      exact ⟨d0, v, hl, hv, by simp⟩
                  | succ j =>
                      obtain ⟨d1, v1, h1, h2, h3⟩ := hpt j q (by simpa using hiq)
                      exact ⟨d1, v1, h1, h2, by simpa using h3⟩

theorem adminAppRecord_ok {st : RegState} {store : Store} {app : String} {r : AllRecord}
    (h : adminAppRecord st store app = .ok r) :
    r.name = app ∧ ∃ ord, alGet st.paramsOrder app = some ord ∧
      adminParamsLoop st store app ord.a = .ok r.params := by
  unfold adminAppRecord at h
  cases ho : alGet st.paramsOrder app with
  | none => rw [ho] at h; exact absurd h (by simp)
  | some ord =>
      rw [ho] at h
      replace h : (do
          let ps ← adminParamsLoop st store app ord.a
          Except.ok (⟨app, ps⟩ : AllRecord)) = Except.ok r := h
      cases hp : adminParamsLoop st store app ord.a with
      | error e => rw [hp] at h; exact absurd h (by simp [Bind.bind, Except.bind])
      | ok ps =>
          rw [hp] at h
          simp only [Bind.bind, Except.bind] at h
          obtain rfl : (⟨app, ps⟩ : AllRecord) = r := Except.ok.inj h
          exact ⟨rfl, ord, rfl, hp⟩

theorem adminAllLoop_ok {st : RegState} {store : Store} :
    ∀ {l : List String} {res : List AllRecord}, adminAllLoop st store l = .ok res →
      List.map AllRecord.name res = l ∧
      ∀ r ∈ res, adminAppRecord st store r.name = .ok r := by
  intro l
  induction l with
  | nil =>
      intro res h
      unfold adminAllLoop at h
      obtain rfl : ([] : List AllRecord) = res := Except.ok.inj h
      exact ⟨rfl, fun r hr => absurd hr (by simp)⟩
  | cons app rest ih =>
      intro res h
      unfold adminAllLoop at h
      cases ha : adminAppRecord st store app with
      | error e => rw [ha] at h; exact absurd h (by simp [Bind.bind, Except.bind])
      | ok r0 =>
          rw [ha] at h
          cases ht : adminAllLoop st store rest with
          | error e => rw [ht] at h; exact absurd h (by simp [Bind.bind, Except.bind])
          | ok tail =>
              rw [ht] at h
              simp only [Bind.bind, Except.bind] at h
              obtain rfl : r0 :: tail = res := Except.ok.inj h
              obtain ⟨hnames, hrec⟩ := ih ht
              have hr0 := (adminAppRecord_ok ha).1
              constructor
              · simp [hnames, hr0]
              · intro r hr
                rcases List.mem_cons.mp hr with rfl | hmem
                · rw [hr0]; exact ha
                · exact hrec r hmem

/-- C7: `get_all_admin_parameters` returns one record per registered
namespace in sorted (code-point lexicographic) order; within a record
the entries follow the admin registration order, each a copy of the
metadata extended with the parameter's name and its resolved value. -/
theorem get_all_admin_sorted :
    ∀ (st : RegState) (store : Store) (res : List AllRecord),
      get_all_admin_parameters st store = .ok res →
      List.map AllRecord.name res =
        List.insertionSort (fun a b => pyStrLe a b = true) (alKeys st.params) ∧
      (List.map AllRecord.name res).Perm (alKeys st.params) ∧
      List.Sorted (fun a b => pyStrLe a b = true) (List.map AllRecord.name res) ∧
      ∀ r ∈ res, ∃ ord, alGet st.paramsOrder r.name = some ord ∧
        r.params.length = ord.a.length ∧
        ∀ (i : Nat) (p : String), ord.a[i]? = some p → ∃ d0 v,
          lookupDef st r.name "A" p = some d0 ∧
          get_admin st store p r.name = .ok v ∧
          r.params[i]? = some (dictSet (dictSet d0 "name" (.str p)) "value" v) := by
  intro st store res h
  unfold get_all_admin_parameters at h
  obtain ⟨hnames, hrec⟩ := adminAllLoop_ok h
  refine ⟨hnames, ?_, ?_, ?_⟩
  · rw [hnames]
    exact List.perm_insertionSort _ _
  · rw [hnames]
    exact List.sorted_insertionSort _ _
  · intro r hr
    obtain ⟨-, ord, ho, hloop⟩ := adminAppRecord_ok (hrec r hr)
    obtain ⟨hlen, hpt⟩ := adminParamsLoop_ok hloop
    exact ⟨ord, ho, hlen, hpt⟩

/-- Registry entry used in the enumeration examples (admin parameter
only). -/
def zAd : AppData :=
  { aparams := [("p1", [("deflt", Value.str "1")])],
    uparams := [], optionsA := none, optionsU := none }

/-- Registry entry used in the enumeration examples (admin and user
parameters plus a `needs_mailbox` option). -/
def aAd : AppData :=
  { aparams := [("p2", [("deflt", Value.str "2")])],
    uparams := [("u1", [("deflt", Value.str "3")])],
    optionsA := none,
    optionsU := some [("needs_mailbox", Value.bool true)] }

/-- Two-namespace registry whose key order is not sorted. -/
def wideSt : RegState :=
  { params := [("zeta", zAd), ("alpha", aAd)],
    paramsOrder := [("zeta", ⟨["p1"], []⟩), ("alpha", ⟨["p2"], ["u1"]⟩)] }

/-- The admin enumeration of `wideSt`. -/
def resC7 : List AllRecord :=
  [⟨"alpha", [[("deflt", Value.str "2"), ("name", Value.str "p2"),
    ("value", Value.str "2")]]⟩,
   ⟨"zeta", [[("deflt", Value.str "1"), ("name", Value.str "p1"),
    ("value", Value.str "1")]]⟩]

/-- C7 (witness): on `wideSt` the records come out sorted `alpha`,
`zeta` even though registration order was `zeta`, `alpha`. -/
theorem get_all_admin_sorted_witness :
    List.map AllRecord.name resC7 =
      List.insertionSort (fun a b => pyStrLe a b = true) (alKeys wideSt.params) ∧
    List.Sorted (fun a b => pyStrLe a b = true) (List.map AllRecord.name resC7) :=
  ⟨(get_all_admin_sorted wideSt [] resC7 rfl).1,
   (get_all_admin_sorted wideSt [] resC7 rfl).2.2.1⟩

/-- The value `get_app_option('U', 'needs_mailbox', False, app)`
resolves to for a registered app. -/
def needsMailboxOpt (ad : AppData) : Value :=
  match ad.optionsU with
  | some od => (dictGet od "needs_mailbox").getD (.bool false)
  | none => .bool false

theorem get_app_option_needs_mailbox {st : RegState} {app : String} {ad : AppData}
    (h : alGet st.params app = some ad) :
    get_app_option st "U" "needs_mailbox" (.bool false) app = .ok (needsMailboxOpt ad) := by
  rw [get_app_option_registered h "U" "needs_mailbox" (.bool false)]
  unfold needsMailboxOpt
  rw [show optionsFor ad "U" = ad.optionsU from rfl]
  cases ad.optionsU with
  | none => rfl
  | some od =>
      cases hd : dictGet od "needs_mailbox" with
      | none => simp [hd]
      | some v => simp [hd]

theorem userParamsLoop_ok {st : RegState} {ustore : UStore} {user : User} {app : String} :
    ∀ {l : List String} {ps : List Dict}, userParamsLoop st ustore user app l = .ok ps →
      ps.length = l.length ∧
      ∀ (i : Nat) (p : String), l[i]? = some p → ∃ d0 v,
        lookupDef st app "U" p = some d0 ∧
        get_user st ustore user p app = .ok v ∧
        ps[i]? = some (dictSet (dictSet d0 "name" (.str p)) "value" v) := by
  intro l
  induction l with
  | nil =>
      intro ps h
      unfold userParamsLoop at h
      obtain rfl : ([] : List Dict) = ps := Except.ok.inj h
      exact ⟨rfl, fun i p hip => absurd hip (by simp)⟩
  | cons p rest ih =>
      intro ps h
      unfold userParamsLoop at h
      cases hl : lookupDef st app "U" p with
      | none => rw [hl] at h; exact absurd h (by simp)
      | some d0 =>
          rw [hl] at h
          replace h : (do
              let v ← get_user st ustore user p app
              let tail ← userParamsLoop st ustore user app rest
              Except.ok (dictSet (dictSet d0 "name" (.str p)) "value" v :: tail)) =
              Except.ok ps := h
          cases hv : get_user st ustore user p app with
          | error e => rw [hv] at h; exact absurd h (by simp [Bind.bind, Except.bind])
          | ok v =>
              rw [hv] at h
              cases ht : userParamsLoop st ustore user app rest with
              | error e => rw [ht] at h; exact absurd h (by simp [Bind.bind, Except.bind])
              | ok tail =>
                  rw [ht] at h
                  simp only [Bind.bind, Except.bind] at h
                  obtain rfl : dictSet (dictSet d0 "name" (.str p)) "value" v :: tail = ps :=
                    Except.ok.inj h
                  obtain ⟨hlen, hpt⟩ := ih ht
                  refine ⟨by simp [hlen], ?_⟩
                  intro i q hiq
                  cases i with
                  | zero =>
                      obtain rfl : p = q := by simpa using hiq
                      exact ⟨d0, v, hl, hv, by simp⟩
                  | succ j =>
                      obtain ⟨d1, v1, h1, h2, h3⟩ := hpt j q (by simpa using hiq)
                      exact ⟨d1, v1, h1, h2, by simpa using h3⟩

theorem userAppRecord_ok {st : RegState} {ustore : UStore} {user : User} {app : String}
    {r : AllRecord} (h : userAppRecord st ustore user app = .ok r) :
    r.name = app ∧ ∃ ord, alGet st.paramsOrder app = some ord ∧
      userParamsLoop st ustore user app ord.u = .ok r.params := by
  unfold userAppRecord at h
  cases ho : alGet st.paramsOrder app with
  | none => rw [ho] at h; exact absurd h (by simp)
  | some ord =>
      rw [ho] at h
      replace h : (do
          let ps ← userParamsLoop st ustore user app ord.u
          Except.ok (⟨app, ps⟩ : AllRecord)) = Except.ok r := h
      cases hp : userParamsLoop st ustore user app ord.u with
      | error e => rw [hp] at h; exact absurd h (by simp [Bind.bind, Except.bind])
      | ok ps =>
          rw [hp] at h
          simp only [Bind.bind, Except.bind] at h
          obtain rfl : (⟨app, ps⟩ : AllRecord) = r := Except.ok.inj h
          exact ⟨rfl, ord, rfl, hp⟩

theorem userAllLoop_mem {st : RegState} {ustore : UStore} {user : User} :
    ∀ {l : List String} {res : List AllRecord}, userAllLoop st ustore user l = .ok res →
      ∀ r ∈ res, ∃ ad, alGet st.params r.name = some ad ∧ ad.uparams ≠ [] ∧
        (pyTruthy (needsMailboxOpt ad) = true → user.has_mailbox = true) ∧
        userAppRecord st ustore user r.name = .ok r := by
  intro l
  induction l with
  | nil =>
      intro res h
      unfold userAllLoop at h
      obtain rfl : ([] : List AllRecord) = res := Except.ok.inj h
      exact fun r hr => absurd hr (by simp)
  | cons app rest ih =>
      intro res h
      unfold userAllLoop at h
      cases hp : alGet st.params app with
      | none => rw [hp] at h; exact absurd h (by simp)
      | some ad =>
          rw [hp] at h
          replace h : (if ad.uparams.isEmpty = true then userAllLoop st ustore user rest
              else do
                let opt ← get_app_option st "U" "needs_mailbox" (.bool false) app
                if (pyTruthy opt && !user.has_mailbox) = true then
                  userAllLoop st ustore user rest
                else do
                  let r ← userAppRecord st ustore user app
                  let tail ← userAllLoop st ustore user rest
                  Except.ok (r :: tail)) = Except.ok res := h
          by_cases he : ad.uparams.isEmpty = true
          · rw [if_pos he] at h
            exact ih h
          · rw [if_neg he] at h
            rw [get_app_option_needs_mailbox hp] at h
            replace h : (if (pyTruthy (needsMailboxOpt ad) && !user.has_mailbox) = true then
                userAllLoop st ustore user rest
              else do
                let r ← userAppRecord st ustore user app
                let tail ← userAllLoop st ustore user rest
                Except.ok (r :: tail)) = Except.ok res := h
            by_cases hc : (pyTruthy (needsMailboxOpt ad) && !user.has_mailbox) = true
            · rw [if_pos hc] at h
              exact ih h
            · rw [if_neg hc] at h
              cases hr : userAppRecord st ustore user app with
              | error e => rw [hr] at h; exact absurd h (by simp [Bind.bind, Except.bind])
              | ok r0 =>
                  rw [hr] at h
                  cases ht : userAllLoop st ustore user rest with
                  | error e =>
                      rw [ht] at h
                      exact absurd h (by simp [Bind.bind, Except.bind])
                  | ok tail =>
                      rw [ht] at h
                      simp only [Bind.bind, Except.bind] at h
                      obtain rfl : r0 :: tail = res := Except.ok.inj h
                      intro r hmem
                      rcases List.mem_cons.mp hmem with rfl | hmem2
                      · have hr0name := (userAppRecord_ok hr).1
                        refine ⟨ad, by rw [hr0name]; exact hp, ?_, ?_, by rw [hr0name]; exact hr⟩
                        · intro hnil
                          exact he (by simp [hnil])
                        · intro htr
                          cases hmb : user.has_mailbox
                          · exact absurd (by simp [htr, hmb]) hc
                          · rfl
                      · exact ih ht r hmem2

theorem userAllLoop_complete {st : RegState} {ustore : UStore} {user : User} :
    ∀ {l : List String} {res : List AllRecord}, userAllLoop st ustore user l = .ok res →
      ∀ app ∈ l, ∀ ad, alGet st.params app = some ad → ad.uparams ≠ [] →
        (pyTruthy (needsMailboxOpt ad) = true → user.has_mailbox = true) →
        ∃ r ∈ res, r.name = app := by
  intro l
  induction l with
  | nil =>
      intro res h app happ
      exact absurd happ (by simp)
  | cons app0 rest ih =>
      intro res h app happ ad hpa hne hmb
      unfold userAllLoop at h
      cases hp : alGet st.params app0 with
      | none => rw [hp] at h; exact absurd h (by simp)
      | some ad0 =>
          rw [hp] at h
          replace h : (if ad0.uparams.isEmpty = true then userAllLoop st ustore user rest
              else do
                let opt ← get_app_option st "U" "needs_mailbox" (.bool false) app0
                if (pyTruthy opt && !user.has_mailbox) = true then
                  userAllLoop st ustore user rest
                else do
                  let r ← userAppRecord st ustore user app0
                  let tail ← userAllLoop st ustore user rest
                  Except.ok (r :: tail)) = Except.ok res := h
          rcases List.mem_cons.mp happ with rfl | hmem
          · rw [hpa] at hp
            have heq : ad0 = ad := (Option.some.inj hp).symm
            rw [heq] at h
            have he : ¬(ad.uparams.isEmpty = true) := by
              intro hx
              exact hne (by simpa using hx)
            rw [if_neg he, get_app_option_needs_mailbox hpa] at h
            replace h : (if (pyTruthy (needsMailboxOpt ad) && !user.has_mailbox) = true then
                userAllLoop st ustore user rest
              else do
                let r ← userAppRecord st ustore user app
                let tail ← userAllLoop st ustore user rest
                Except.ok (r :: tail)) = Except.ok res := h
            have hc : ¬((pyTruthy (needsMailboxOpt ad) && !user.has_mailbox) = true) := by
              intro hx
              rw [Bool.and_eq_true] at hx
              rw [hmb (by exact hx.1)] at hx
              simp at hx
            rw [if_neg hc] at h
            cases hr : userAppRecord st ustore user app with
            | error e => rw [hr] at h; exact absurd h (by simp [Bind.bind, Except.bind])
            | ok r0 =>
                rw [hr] at h
                cases ht : userAllLoop st ustore user rest with
                | error e =>
                    rw [ht] at h
                    exact absurd h (by simp [Bind.bind, Except.bind])
                | ok tail =>
                    rw [ht] at h
                    simp only [Bind.bind, Except.bind] at h
                    obtain rfl : r0 :: tail = res := Except.ok.inj h
                    exact ⟨r0, by simp, (userAppRecord_ok hr).1⟩
          · by_cases he : ad0.uparams.isEmpty = true
            · rw [if_pos he] at h
              exact ih h app hmem ad hpa hne hmb
            · rw [if_neg he, get_app_option_needs_mailbox hp] at h
              replace h : (if (pyTruthy (needsMailboxOpt ad0) && !user.has_mailbox) = true then
                  userAllLoop st ustore user rest
                else do
                  let r ← userAppRecord st ustore user app0
                  let tail ← userAllLoop st ustore user rest
                  Except.ok (r :: tail)) = Except.ok res := h
              by_cases hc : (pyTruthy (needsMailboxOpt ad0) && !user.has_mailbox) = true
              · rw [if_pos hc] at h
                exact ih h app hmem ad hpa hne hmb
              · rw [if_neg hc] at h
                cases hr : userAppRecord st ustore user app0 with
                | error e => rw [hr] at h; exact absurd h (by simp [Bind.bind, Except.bind])
                | ok r0 =>
                    rw [hr] at h
                    cases ht : userAllLoop st ustore user rest with
                    | error e =>
                        rw [ht] at h
                        exact absurd h (by simp [Bind.bind, Except.bind])
                    | ok tail =>
                        rw [ht] at h
                        simp only [Bind.bind, Except.bind] at h
                        obtain rfl : r0 :: tail = res := Except.ok.inj h
                        obtain ⟨r, hrmem, hrname⟩ := ih ht app hmem ad hpa hne hmb
                        exact ⟨r, by simp [hrmem], hrname⟩

/-- C8: `get_all_user_params` omits namespaces with no user-level
parameters and namespaces whose truthy `needs_mailbox` option is not
matched by the user's mailbox capability; every other registered
namespace contributes a record with its user parameters resolved. -/
theorem get_all_user_filters :
    ∀ (st : RegState) (ustore : UStore) (user : User) (res : List AllRecord),
      get_all_user_params st ustore user = .ok res →
      (∀ app ad, alGet st.params app = some ad → ad.uparams = [] →
        ∀ r ∈ res, r.name ≠ app) ∧
      (∀ app ad, alGet st.params app = some ad →
        pyTruthy (needsMailboxOpt ad) = true → user.has_mailbox = false →
        ∀ r ∈ res, r.name ≠ app) ∧
      (∀ app ad, alGet st.params app = some ad → ad.uparams ≠ [] →
        (pyTruthy (needsMailboxOpt ad) = true → user.has_mailbox = true) →
        ∃ r ∈ res, r.name = app ∧ ∃ ord, alGet st.paramsOrder app = some ord ∧
          userParamsLoop st ustore user app ord.u = .ok r.params ∧
          r.params.length = ord.u.length) := by
  intro st ustore user res h
  unfold get_all_user_params at h
  refine ⟨?_, ?_, ?_⟩
  · intro app ad hpa hemp r hr hname
    obtain ⟨ad', hpa', hne', _, _⟩ := userAllLoop_mem h r hr
    rw [hname, hpa] at hpa'
    obtain rfl : ad = ad' := Option.some.inj hpa'
    exact hne' hemp
  · intro app ad hpa htr hnm r hr hname
    obtain ⟨ad', hpa', _, himp, _⟩ := userAllLoop_mem h r hr
    rw [hname, hpa] at hpa'
    obtain rfl : ad = ad' := Option.some.inj hpa'
    rw [himp htr] at hnm
    exact absurd hnm (by simp)
  · intro app ad hpa hne hmb
    have happ : app ∈ sortedKeys st.params := by
      unfold sortedKeys
      rw [List.mem_insertionSort]
      exact mem_alKeys_of_get_some hpa
    obtain ⟨r, hr, hrname⟩ := userAllLoop_complete h app happ ad hpa hne hmb
    obtain ⟨ad', hpa', hne', himp', hrec⟩ := userAllLoop_mem h r hr
    obtain ⟨-, ord, ho, hloop⟩ := userAppRecord_ok hrec
    rw [hrname] at ho hloop
    exact ⟨r, hr, hrname, ord, ho, hloop, (userParamsLoop_ok hloop).1⟩

/-- C8 (witness): for a mailbox-less user, `alpha` (whose
`needs_mailbox` is set) and `zeta` (no user parameters) are both
absent; for a mailbox owner, `alpha` appears. -/
theorem get_all_user_filters_witness :
    (∀ r ∈ ([] : List AllRecord), r.name ≠ "alpha") ∧
    (∃ r ∈ [(⟨"alpha", [[("deflt", Value.str "3"), ("name", Value.str "u1"),
        ("value", Value.str "3")]]⟩ : AllRecord)], r.name = "alpha") := by
  constructor
  · exact (get_all_user_filters wideSt [] ⟨"bob", false⟩ [] rfl).2.1 "alpha" aAd rfl rfl
      (by decide)
  · obtain ⟨r, hr, hrname, -⟩ :=
      (get_all_user_filters wideSt [] ⟨"bob", true⟩ _ rfl).2.2 "alpha" aAd rfl
        (by decide) (fun _ => rfl)
    exact ⟨r, hr, hrname⟩
